import Mathlib

/-!
A shallow embedding of the mesh node registry of `planesections/builder.py`:
the `Node` and `Beam` data model, node insertion and merging (`addNode`,
`addLabel`, `addNodes`), sorting and identifier/label/load remapping
(`sortNodes`, `resetNodeID`, `remapLabels`, `remapPointLoads`), fixity
updates (`setFixity` with its input validation), load attachment
(`addPointLoad`, `addDistLoad`) and the derived queries (`getLength`,
`Fmax`).

Modelling conventions:
* beam coordinates and force values are rationals (`ℚ`), compared exactly,
  as the Python code compares floats exactly;
* Python `None` becomes `Option`; a Python call that can raise becomes an
  `Option`-valued function (`none` = the exception propagates, leaving the
  caller's state unchanged);
* `numpy.argsort` over pairwise-distinct keys is order-isomorphic to any
  stable sort of the indices, so it is embedded as a mergesort of the index
  list (all theorems about sorting assume the registry invariant that
  coordinates are pairwise distinct, under which the two agree);
* the analyzer-owned result fields `disp`/`rFrc` and the plotting flag
  `labelIsPlotted` are never read by the functions under study and are
  omitted; `Fint` is kept because `Fmax` reads it.
-/

namespace PlaneSections

/-- Embeds the data of `Node.__init__`: position `x`, fixity vector,
identifier `ID` (Python initialises it to `None`; here `0` until
`_setID` runs), optional label, attached point-load ids, the derived
`hasReaction` flag and the analyzer-written internal forces `Fint`. -/
structure Node where
  x : ℚ
  fixity : List ℤ
  ID : Nat
  label : Option String
  pointLoadIDs : List Nat
  hasReaction : Bool
  Fint : List ℚ
  deriving Repr, DecidableEq

instance : Inhabited Node :=
  ⟨{ x := 0, fixity := [], ID := 0, label := none, pointLoadIDs := [],
     hasReaction := false, Fint := [] }⟩

/-- Embeds `Node.__init__`: a fresh node has no attached loads, and
`hasReaction` comes from `np.any(np.array(fixity) != np.array([0,0,0], int))`.
The comparand is hard-coded at length 3, so the `!=` is elementwise only
for the broadcastable fixity lengths 3 and 1, where it means "some entry
is nonzero" (for length 1 the single entry is broadcast across all three
slots).  For every other length — including the standard length-6 3D
fixity — the shapes do not broadcast and the `!=` of the numpy era this
code targets collapses to the scalar `True` (later numpy raises), so the
node gets `hasReaction = True` no matter the entries. -/
def mkNode (x : ℚ) (fixity : List ℤ) (label : Option String) : Node :=
  { x := x, fixity := fixity, ID := 0, label := label, pointLoadIDs := [],
    hasReaction :=
      if fixity.length = 3 ∨ fixity.length = 1 then fixity.any (fun v => v != 0)
      else true,
    Fint := [] }

/-- Embeds the `PointLoad` record: force vector `P`, coordinate `x`,
anchor node identifier `nodeID`, label. -/
structure PointLoad where
  P : List ℚ
  x : ℚ
  nodeID : Nat
  label : String
  deriving Repr, DecidableEq

instance : Inhabited PointLoad := ⟨{ P := [], x := 0, nodeID := 0, label := "" }⟩

/-- Embeds the `EleLoad` record (distributed load): span `x1`..`x2`,
intensity vector `P`, label. -/
structure EleLoad where
  x1 : ℚ
  x2 : ℚ
  P : List ℚ
  label : String
  deriving Repr, DecidableEq

/-- Embeds the mutable state of `Beam`/`EulerBeam`: degree-of-freedom count
`ndf`, the (always-empty, see `remapLabels`) label dictionary `nodeLabels`
as an association list, the node sequence, the created-node counter
`Nnodes`, the point and distributed loads, and the coordinate set
`nodeCoords`. -/
structure Beam where
  ndf : Nat
  nodeLabels : List (String × Nat)
  nodes : List Node
  Nnodes : Nat
  pointLoads : List PointLoad
  eleLoads : List EleLoad
  nodeCoords : Finset ℚ
  deriving DecidableEq

/-- Embeds `EulerBeam.__init__` with no coordinates: `_initArrays` plus
`_initDimensionVariables` (`ndf` is 3 for `'2D'`, 6 for `'3D'`). -/
def emptyBeam (ndf : Nat) : Beam :=
  { ndf := ndf, nodeLabels := [], nodes := [], Nnodes := 0,
    pointLoads := [], eleLoads := [], nodeCoords := ∅ }

/-- Embeds `Beam._findNode`: index of the first node whose position equals
`xInput` exactly, `none` when there is none. -/
def findNode (xInput : ℚ) : List Node → Option Nat
  | [] => none
  | n :: rest =>
    if n.x = xInput then some 0 else (findNode xInput rest).map (· + 1)

/-- Embeds `Beam.getNodeIDs`. -/
def getNodeIDs (b : Beam) : List Nat := b.nodes.map (fun n => n.ID)

/-- One step of a stable insertion sort of indices by their key in `xs`:
insert index `i` before the first index with a strictly larger key. -/
def insertSorted (xs : List ℚ) (i : Nat) : List Nat → List Nat
  | [] => [i]
  | j :: rest =>
    if xs.getD i 0 < xs.getD j 0 then i :: j :: rest
    else j :: insertSorted xs i rest

/-- Embeds `np.argsort(xcoords)`: the indices `0..n-1` stably sorted by
their key in `xs` (it coincides with `numpy`'s result whenever the keys
are pairwise distinct, which the registry invariant guarantees). -/
def argsort (xs : List ℚ) : List Nat :=
  (List.range xs.length).foldr (insertSorted xs) []

/-- Embeds `Beam._resetNodeID`: renumber the nodes `k+1, k+2, ...` in
sequence order (the caller starts the counter `k` at 0). -/
def resetNodeID (k : Nat) : List Node → List Node
  | [] => []
  | n :: rest => { n with ID := k + 1 } :: resetNodeID (k + 1) rest

/-- Embeds `Beam._remapLabels`: push every stored index through the sort
permutation.  (`nodeLabels` is never written elsewhere, so this dictionary
is empty in every reachable state.) -/
def remapLabels (labels : List (String × Nat)) (sortedInd : List Nat) :
    List (String × Nat) :=
  labels.map (fun p => (p.1, sortedInd.getD p.2 0))

/-- Embeds `Beam._remapPointLoads`: for each point load, find where its old
node identifier landed in the permuted identifier list and re-anchor it
there (`np.where(sortedIDs == pointLoad.nodeID)[0][0] + 1`). -/
def remapPointLoads (loads : List PointLoad) (oldIDs sortedInd : List Nat) :
    List PointLoad :=
  let sortedIDs := sortedInd.map (fun i => oldIDs.getD i 0)
  loads.map (fun L => { L with nodeID := sortedIDs.indexOf L.nodeID + 1 })

/-- Embeds `Beam._sortNodes`: capture the old identifiers, sort the nodes
by position, renumber them `1..N`, and remap the label dictionary and the
point loads through the sort permutation. -/
def sortNodes (b : Beam) : Beam :=
  let xcoords := b.nodes.map (fun n => n.x)
  let oldInd := getNodeIDs b
  let sortedInd := argsort xcoords
  let sortedNodes := sortedInd.map (fun i => b.nodes.getD i default)
  { b with
    nodes := resetNodeID 0 sortedNodes,
    nodeLabels := remapLabels b.nodeLabels sortedInd,
    pointLoads := remapPointLoads b.pointLoads oldInd sortedInd }

/-- Embeds `Beam._addNewNode`: bump the counter, give the new node the
counter as identifier, append it, record its coordinate, and sort if
requested. -/
def addNewNode (b : Beam) (newNode : Node) (sort : Bool) : Beam :=
  let N := b.Nnodes + 1
  let b := { b with
    Nnodes := N,
    nodes := b.nodes ++ [{ newNode with ID := N }],
    nodeCoords := insert newNode.x b.nodeCoords }
  if sort then sortNodes b else b

/-- Embeds `Beam.addNode`.  A `none` fixity is the Python default `None`
(all free); the label argument is `Option String` (`none` = Python `None`,
`some ""` = the default `''`).  At an existing coordinate the stored node
is replaced by the freshly constructed one, keeping only the old
identifier; otherwise `_addNewNode` runs.  The flag is the Python return
value (0 updated, 1 added; -1 models the crash of `self.nodes[None]` when
the coordinate set and the node list disagree, which no reachable state
allows). -/
def addNode (b : Beam) (x : ℚ) (fixity : Option (List ℤ))
    (label : Option String) (sort : Bool) : Beam × ℤ :=
  let fix := fixity.getD (List.replicate b.ndf 0)
  let newNode := mkNode x fix label
  if x ∈ b.nodeCoords then
    match findNode x b.nodes with
    | some index =>
      let nodeID := (b.nodes.getD index default).ID
      let newNode := { newNode with ID := nodeID }
      ({ b with nodes := b.nodes.set index newNode }, 0)
    | none => (b, -1)
  else
    (addNewNode b newNode sort, 1)

/-- Embeds `Beam.addLabel`: at an existing coordinate only the stored
node's label is overwritten; otherwise a fully-free node carrying the
label is added. -/
def addLabel (b : Beam) (x : ℚ) (label : Option String) (sort : Bool) :
    Beam × ℤ :=
  let fixity : List ℤ := List.replicate b.ndf 0
  let newNode := mkNode x fixity label
  if x ∈ b.nodeCoords then
    match findNode x b.nodes with
    | some index =>
      let nd := b.nodes.getD index default
      ({ b with nodes := b.nodes.set index { nd with label := label } }, 0)
    | none => (b, -1)
  else
    (addNewNode b newNode sort, 1)

/-- Embeds `Beam.addNodes`: insert every coordinate with sorting deferred
(`sort = False`), then sort once at the end.  Missing fixities default to
all-free, missing labels to `None`. -/
def addNodes (b : Beam) (xCoords : List ℚ) (fixities : Option (List (List ℤ)))
    (labels : Option (List (Option String))) : Beam :=
  let n := xCoords.length
  let fixs := fixities.getD (List.replicate n (List.replicate b.ndf 0))
  let labs := labels.getD (List.replicate n none)
  let b := (List.range n).foldl
    (fun acc ii =>
      (addNode acc (xCoords.getD ii 0) (some (fixs.getD ii [])) (labs.getD ii none) false).1)
    b
  sortNodes b

/-- A fixity argument as `setFixity` accepts it: a bare integer or a
vector. -/
inductive FixityInput where
  | int (z : ℤ)
  | vec (l : List ℤ)
  deriving Repr, DecidableEq

/-- Embeds `Beam._convertFixityInput`: a bare integer is broadcast to a
vector of length `ndf`. -/
def convertFixityInput (ndf : Nat) : FixityInput → List ℤ
  | .int z => List.replicate ndf z
  | .vec l => l

/-- Embeds `Beam._checkfixityInput`: `true` iff no `ValueError` is raised,
i.e. every entry is 0 or 1 AND the length is neither 2 nor greater than
`ndf`. -/
def checkfixityInput (ndf : Nat) (fixity : List ℤ) : Bool :=
  (fixity.all (fun v => v == 0 || v == 1)) &&
    !(fixity.length == 2 || decide (ndf < fixity.length))

/-- Python truthiness of an optional string (`if label:`). -/
def truthy : Option String → Bool
  | none => false
  | some s => s != ""

/-- Embeds `Beam.setFixity`: convert and validate the fixity input
(`none` = the `ValueError` propagates, no state change); on an existing
node overwrite `fixity`, set `hasReaction = True`, and overwrite the label
only when truthy; otherwise delegate to `addNode`. -/
def setFixity (b : Beam) (x : ℚ) (f : FixityInput) (label : Option String) :
    Option Beam :=
  let fix := convertFixityInput b.ndf f
  if checkfixityInput b.ndf fix then
    if x ∈ b.nodeCoords then
      match findNode x b.nodes with
      | some index =>
        let nd := b.nodes.getD index default
        let nd := { nd with fixity := fix, hasReaction := true }
        let nd := if truthy label then { nd with label := label } else nd
        some { b with nodes := b.nodes.set index nd }
      | none => none
    else
      some (addNode b x (some fix) label true).1
  else none

/-- Embeds `Beam.addPointLoad`: the load id is `len(pointLoads) + 1`; the
anchor node is looked up, or created through `addNode x` (defaults:
all-free fixity, label `''`, sort on) when absent; the load id is appended
to the anchor's `pointLoadIDs`, a truthy label overwrites the anchor's
label, and the load is appended anchored at `nodeIndex + 1`.  The body
after the node lookup is split off as `attachPointLoad`. -/
def attachPointLoad (b : Beam) (x : ℚ) (pointLoad : List ℚ) (label : String)
    (loadID : Nat) (nodeIndex : Nat) : Beam :=
  let nd := b.nodes.getD nodeIndex default
  let nd := { nd with pointLoadIDs := nd.pointLoadIDs ++ [loadID] }
  let nd := if label != "" then { nd with label := some label } else nd
  let b := { b with nodes := b.nodes.set nodeIndex nd }
  let nodeID := nodeIndex + 1
  { b with pointLoads := b.pointLoads ++
      [{ P := pointLoad, x := x, nodeID := nodeID, label := "" }] }

/-- Embeds `Beam.addPointLoad` proper: compute the load id, ensure the
anchor node exists, then attach (the `none` branch is the unreachable
crash of `self.nodes[None]`). -/
def addPointLoad (b : Beam) (x : ℚ) (pointLoad : List ℚ) (label : String) :
    Beam :=
  let loadID := b.pointLoads.length + 1
  let b := if x ∈ b.nodeCoords then b else (addNode b x none (some "") true).1
  match findNode x b.nodes with
  | none => b
  | some nodeIndex => attachPointLoad b x pointLoad label loadID nodeIndex

/-- Embeds `Beam.addDistLoad`: ensure anchor nodes exist at both ends
(created all-free, label `''`, sort on), then append the distributed-load
record keyed by coordinates. -/
def addDistLoad (b : Beam) (x1 x2 : ℚ) (distLoad : List ℚ) (label : String) :
    Beam :=
  let fix : List ℤ := List.replicate b.ndf 0
  let b := if x1 ∈ b.nodeCoords then b else (addNode b x1 (some fix) (some "") true).1
  let b := if x2 ∈ b.nodeCoords then b else (addNode b x2 (some fix) (some "") true).1
  { b with eleLoads := b.eleLoads ++ [{ x1 := x1, x2 := x2, P := distLoad, label := label }] }

/-- Embeds `Beam.getLength` (`self.nodes[-1].x - self.nodes[0].x`): `none`
models the `IndexError` on an empty node list. -/
def getLength (b : Beam) : Option ℚ :=
  match b.nodes.getLast?, b.nodes.head? with
  | some last, some head => some (last.x - head.x)
  | _, _ => none

/-- One step of the `Fmax` loop body. -/
def fmaxStep (ndf : Nat) (index : Nat) (mm : ℚ × ℚ) (nd : Node) : ℚ × ℚ :=
  let F1 := nd.Fint.getD index 0
  let F2 := nd.Fint.getD (index + ndf) 0
  let lo := if F1 < mm.1 ∨ F2 < mm.1 then min F1 F2 else mm.1
  let hi := if mm.2 < F1 ∨ mm.2 < F2 then max F1 F2 else mm.2
  (lo, hi)

/-- Embeds `Beam.Fmax`: running `(Fmin, Fmax)` over every node's
left/right internal force at the given component, both seeded at zero. -/
def Fmax (b : Beam) (index : Nat) : ℚ × ℚ :=
  b.nodes.foldl (fmaxStep b.ndf index) (0, 0)

/-- One public mutation from the spec's "insertions and resorts": an
`addNode` call with arbitrary arguments, or an explicit resort. -/
inductive NodeOp where
  | insert (x : ℚ) (fixity : Option (List ℤ)) (label : Option String) (sort : Bool)
  | resort
  deriving Repr

/-- Run one `NodeOp`. -/
def applyOp (b : Beam) : NodeOp → Beam
  | .insert x fixity label sort => (addNode b x fixity label sort).1
  | .resort => sortNodes b

/-- Run a sequence of `NodeOp`s left to right. -/
def applyOps (b : Beam) (ops : List NodeOp) : Beam :=
  ops.foldl applyOp b

/-- The beam states reachable through the public builder API, starting
from an empty 2D or 3D beam. -/
inductive Reachable : Beam → Prop where
  | init2D : Reachable (emptyBeam 3)
  | init3D : Reachable (emptyBeam 6)
  | step_addNode {b} (x fixity label sort) :
      Reachable b → Reachable (addNode b x fixity label sort).1
  | step_addLabel {b} (x label sort) :
      Reachable b → Reachable (addLabel b x label sort).1
  | step_addNodes {b} (xCoords fixities labels) :
      Reachable b → Reachable (addNodes b xCoords fixities labels)
  | step_setFixity {b b'} (x f label) :
      Reachable b → setFixity b x f label = some b' → Reachable b'
  | step_addPointLoad {b} (x pointLoad label) :
      Reachable b → Reachable (addPointLoad b x pointLoad label)
  | step_addDistLoad {b} (x1 x2 distLoad label) :
      Reachable b → Reachable (addDistLoad b x1 x2 distLoad label)

/-! ### Definitions used by the specification statements -/

/-- The sort permutation computed inside `_sortNodes` (`np.argsort` of the
node positions). -/
def sortPerm (b : Beam) : List Nat := argsort (b.nodes.map (fun n => n.x))

/-- The well-formedness invariant of the node registry: the node counter
matches the sequence length, the coordinate set mirrors the node
positions, positions are pairwise distinct, every node's identifier is its
1-based sequence index, and every point load's `nodeID` is a valid
identifier. -/
structure WF (b : Beam) : Prop where
  count : b.Nnodes = b.nodes.length
  coords : ∀ q : ℚ, q ∈ b.nodeCoords ↔ q ∈ b.nodes.map (fun n => n.x)
  nodup : (b.nodes.map (fun n => n.x)).Nodup
  ids : ∀ i, i < b.nodes.length → (b.nodes.getD i default).ID = i + 1
  loads : ∀ L ∈ b.pointLoads, 1 ≤ L.nodeID ∧ L.nodeID ≤ b.nodes.length

/-- The node that the merge branch of `addNode` stores: the freshly built
node carrying over only the old node's identifier. -/
def mergedNode (b : Beam) (x : ℚ) (f : Option (List ℤ)) (l : Option String)
    (index : Nat) : Node :=
  { mkNode x (f.getD (List.replicate b.ndf 0)) l with
    ID := (b.nodes.getD index default).ID }

/-- The node that the merge branch of `addLabel` stores: the old node with
only its label overwritten. -/
def relabeledNode (b : Beam) (label : Option String) (index : Nat) : Node :=
  { b.nodes.getD index default with label := label }

/-- The node that the existing-node branch of `setFixity` stores: fixity
overwritten, `hasReaction` set to `True` unconditionally, label
overwritten only when truthy. -/
def refixedNode (b : Beam) (fix : List ℤ) (label : Option String)
    (index : Nat) : Node :=
  let nd := b.nodes.getD index default
  let nd := { nd with fixity := fix, hasReaction := true }
  if truthy label then { nd with label := label } else nd

/-- The node that `addPointLoad` stores on the anchor: the load id
appended and, when the label is truthy, the label overwritten. -/
def loadedNode (b : Beam) (label : String) (loadID : Nat) (index : Nat) : Node :=
  let nd := b.nodes.getD index default
  let nd := { nd with pointLoadIDs := nd.pointLoadIDs ++ [loadID] }
  if label != "" then { nd with label := some label } else nd

/-- The state `_addNewNode` builds before its optional sort. -/
def appendNode (b : Beam) (nd : Node) : Beam :=
  { b with
    Nnodes := b.Nnodes + 1,
    nodes := b.nodes ++ [{ nd with ID := b.Nnodes + 1 }],
    nodeCoords := insert nd.x b.nodeCoords }

/-- The point load stored at index `k` resolves to a node at coordinate
`c`: a node at position `c` exists and the load's `nodeID` is that node's
1-based sequence index. -/
def loadAnchored (b : Beam) (k : Nat) (c : ℚ) : Prop :=
  k < b.pointLoads.length ∧ ∃ i, i < b.nodes.length ∧
    (b.nodes.getD i default).x = c ∧ (b.pointLoads.getD k default).nodeID = i + 1

/-- The label `L` resolves to coordinate `c`: exactly one node carries the
label `L`, and that node's position is `c`. -/
def labelResolves (b : Beam) (L : String) (c : ℚ) : Prop :=
  ∃ i, i < b.nodes.length ∧ (b.nodes.getD i default).x = c ∧
    (b.nodes.getD i default).label = some L ∧
    ∀ j, j < b.nodes.length → (b.nodes.getD j default).label = some L → j = i

/-- The side condition on an operation under which a label anchored at `c`
is untouched: the insertion is not a merge at `c` (which replaces the
node, label included) and does not reuse the label. -/
def opAvoids (c : ℚ) (L : String) : NodeOp → Prop
  | NodeOp.insert x _ lbl _ => x ≠ c ∧ lbl ≠ some L
  | NodeOp.resort => True

/-- All left/right internal-force samples of the beam at a force
component, in node order. -/
def forceSamples (ndf : Nat) (nodes : List Node) (index : Nat) : List ℚ :=
  nodes.flatMap (fun nd => [nd.Fint.getD index 0, nd.Fint.getD (index + ndf) 0])


/-! ### Concrete beams used by the witnesses and counterexamples -/

/-- Scenario A of the spec: `EulerBeam2D([0,5], [[1,1,1],[1,1,1]], labels=['A','B'])`. -/
def beamA : Beam :=
  addNodes (emptyBeam 3) [0, 5] (some [[1, 1, 1], [1, 1, 1]])
    (some [some "A", some "B"])

/-- Scenario C of the spec: from `beamA`, `addNode(3, label='D')` then
`addNode(6, label='C')`. -/
def beamC : Beam :=
  (addNode ((addNode beamA 3 none (some "D") true).1) 6 none (some "C") true).1

/-- The coordinate 2.5 in literal normal form (`Rat.div` is irreducible,
so `5/2` would not evaluate inside the kernel; this is the same
rational). -/
def twoPointFive : ℚ := Rat.mk' 5 2 (by decide) (by decide)

/-- The Scenario E mesh: nodes at 0, 2.5 and 5. -/
def beamE0 : Beam := addNodes (emptyBeam 3) [0, twoPointFive, 5] none none

/-- Two deferred-sort insertions at 5 and 0 followed by `addNode` at the
existing coordinate 5 with `sort = True` (the merge path). -/
def unsortedMergeBeam : Beam :=
  (addNode ((addNode ((addNode (emptyBeam 3) 5 none (some "") false).1)
    0 none (some "") false).1) 5 none (some "") true).1

/-- Nodes at 0 and 5 with a point load attached at 0. -/
def loadedBeam : Beam :=
  addPointLoad (addNodes (emptyBeam 3) [0, 5] none none) 0 [0, 10, 0] ""

/-- A beam with a single node at 5. -/
def oneNodeBeam : Beam := (addNode (emptyBeam 3) 5 none (some "") true).1

/-- A two-node beam carrying analyzer-written internal forces (the
analyzer, an external collaborator, writes `Fint` directly onto the
nodes). -/
def analyzedBeam : Beam :=
  { emptyBeam 3 with nodes :=
      [{ mkNode 0 [0, 0, 0] none with ID := 1, Fint := [1, 2, 3, 4, 5, 6] },
       { mkNode 1 [0, 0, 0] none with ID := 2, Fint := [2, 3, 4, 5, 6, 7] }] }

/-- The beam `setFixity(0, [0,0,0])` produces from `beamA` (used as the
existing-node witness for the `setFixity` behaviour). -/
def refixedBeamA : Beam :=
  { beamA with nodes := beamA.nodes.set 0 (refixedNode beamA [0, 0, 0] none 0) }

/-! ### Generic list lemmas used by the development -/

theorem getD_eq_get {α : Type _} (l : List α) (d : α) {i : Nat} (h : i < l.length) :
    l.getD i d = l.get ⟨i, h⟩ := by
  simp [List.getD_eq_getElem?_getD, List.getElem?_eq_getElem h]

theorem map_getD_range {α : Type _} (l : List α) (d : α) :
    (List.range l.length).map (fun i => l.getD i d) = l := by
  apply List.ext_get
  · simp
  · intro n h₁ h₂
    simp only [List.get_eq_getElem, List.getElem_map, List.getElem_range]
    exact getD_eq_get l d h₂

theorem indexOf_map_succ : ∀ (p : List Nat) (i : Nat),
    (p.map (fun t => t + 1)).indexOf (i + 1) = p.indexOf i := by
  intro p i
  induction p with
  | nil => rfl
  | cons a rest ih =>
    simp only [List.map_cons, List.indexOf_cons, ih]
    by_cases hai : a = i
    · subst hai; simp
    · have h1 : (a == i) = false := by simp [hai]
      have h2 : (a + 1 == i + 1) = false := by simp [hai]
      rw [h1, h2]

/-! ### Lemmas about `findNode` -/

theorem findNode_some : ∀ (nodes : List Node) (x : ℚ) (i : Nat),
    findNode x nodes = some i →
      ∃ h : i < nodes.length, (nodes.get ⟨i, h⟩).x = x := by
  intro nodes
  induction nodes with
  | nil => intro x i h; simp [findNode] at h
  | cons n rest ih =>
    intro x i h
    by_cases hx : n.x = x
    · simp only [findNode, if_pos hx, Option.some.injEq] at h
      subst h
      exact ⟨Nat.succ_pos _, hx⟩
    · simp only [findNode, if_neg hx, Option.map_eq_some'] at h
      obtain ⟨j, hj, rfl⟩ := h
      obtain ⟨hlt, hx'⟩ := ih x j hj
      exact ⟨Nat.succ_lt_succ hlt, hx'⟩

theorem findNode_mem : ∀ (nodes : List Node) (x : ℚ),
    x ∈ nodes.map (fun n => n.x) → ∃ i, findNode x nodes = some i := by
  intro nodes
  induction nodes with
  | nil => intro x h; simp at h
  | cons n rest ih =>
    intro x h
    by_cases hx : n.x = x
    · exact ⟨0, by simp [findNode, hx]⟩
    · simp only [List.map_cons, List.mem_cons] at h
      rcases h with h | h
      · exact absurd h.symm hx
      · obtain ⟨i, hi⟩ := ih x h
        exact ⟨i + 1, by simp [findNode, hx, hi]⟩

/-! ### Lemmas about `argsort` -/

theorem insertSorted_perm (xs : List ℚ) (i : Nat) :
    ∀ (l : List Nat), (insertSorted xs i l).Perm (i :: l) := by
  intro l
  induction l with
  | nil => exact List.Perm.refl _
  | cons j rest ih =>
    by_cases h : xs.getD i 0 < xs.getD j 0
    · simp only [insertSorted, if_pos h]
      exact List.Perm.refl _
    · simp only [insertSorted, if_neg h]
      exact (List.Perm.cons j ih).trans (List.Perm.swap i j rest)

theorem insertSorted_sorted (xs : List ℚ) (i : Nat) :
    ∀ (l : List Nat), List.Pairwise (fun a b => xs.getD a 0 ≤ xs.getD b 0) l →
      List.Pairwise (fun a b => xs.getD a 0 ≤ xs.getD b 0) (insertSorted xs i l) := by
  intro l
  induction l with
  | nil => intro _; exact List.pairwise_singleton _ _
  | cons j rest ih =>
    intro hp
    rcases List.pairwise_cons.mp hp with ⟨hj, hrest⟩
    by_cases h : xs.getD i 0 < xs.getD j 0
    · simp only [insertSorted, if_pos h]
      refine List.pairwise_cons.mpr ⟨?_, hp⟩
      intro b hb
      rcases List.mem_cons.mp hb with rfl | hb
      · exact le_of_lt h
      · exact le_trans (le_of_lt h) (hj b hb)
    · simp only [insertSorted, if_neg h]
      refine List.pairwise_cons.mpr ⟨?_, ih hrest⟩
      intro b hb
      have hmem : b ∈ i :: rest := (insertSorted_perm xs i rest).mem_iff.mp hb
      rcases List.mem_cons.mp hmem with rfl | hb'
      · exact le_of_not_lt h
      · exact hj b hb'

theorem foldr_insertSorted_perm (xs : List ℚ) :
    ∀ (l : List Nat), (l.foldr (insertSorted xs) []).Perm l := by
  intro l
  induction l with
  | nil => exact List.Perm.refl _
  | cons a t ih =>
    exact (insertSorted_perm xs a _).trans (List.Perm.cons a ih)

theorem argsort_perm (xs : List ℚ) : (argsort xs).Perm (List.range xs.length) :=
  foldr_insertSorted_perm xs _

theorem argsort_length (xs : List ℚ) : (argsort xs).length = xs.length := by
  simpa using (argsort_perm xs).length_eq

theorem argsort_nodup (xs : List ℚ) : (argsort xs).Nodup :=
  (argsort_perm xs).symm.nodup (List.nodup_range _)

theorem mem_argsort (xs : List ℚ) {i : Nat} : i ∈ argsort xs ↔ i < xs.length := by
  rw [(argsort_perm xs).mem_iff, List.mem_range]

theorem argsort_sorted (xs : List ℚ) :
    List.Pairwise (fun i j => xs.getD i 0 ≤ xs.getD j 0) (argsort xs) := by
  unfold argsort
  induction (List.range xs.length) with
  | nil => exact List.Pairwise.nil
  | cons a t ih => exact insertSorted_sorted xs a _ ih

/-! ### Lemmas about `resetNodeID` -/

theorem resetNodeID_length : ∀ (k : Nat) (ns : List Node),
    (resetNodeID k ns).length = ns.length := by
  intro k ns
  induction ns generalizing k with
  | nil => rfl
  | cons n rest ih => simp [resetNodeID, ih]

theorem resetNodeID_get : ∀ (k : Nat) (ns : List Node) (i : Nat) (h : i < ns.length),
    (resetNodeID k ns).get ⟨i, by rw [resetNodeID_length]; exact h⟩ =
      { ns.get ⟨i, h⟩ with ID := k + i + 1 } := by
  intro k ns
  induction ns generalizing k with
  | nil => intro i h; cases h
  | cons n rest ih =>
    intro i h
    cases i with
    | zero => rfl
    | succ j =>
      have hj : j < rest.length := Nat.lt_of_succ_lt_succ h
      have := ih (k + 1) j hj
      have harith : k + 1 + j + 1 = k + (j + 1) + 1 := by omega
      calc (resetNodeID k (n :: rest)).get ⟨j + 1, _⟩
          = (resetNodeID (k + 1) rest).get ⟨j, by rw [resetNodeID_length]; exact hj⟩ := rfl
        _ = { rest.get ⟨j, hj⟩ with ID := k + 1 + j + 1 } := this
        _ = { (n :: rest).get ⟨j + 1, h⟩ with ID := k + (j + 1) + 1 } := by rw [harith]; rfl

theorem resetNodeID_map_x : ∀ (k : Nat) (ns : List Node),
    (resetNodeID k ns).map (fun n => n.x) = ns.map (fun n => n.x) := by
  intro k ns
  induction ns generalizing k with
  | nil => rfl
  | cons n rest ih => simp [resetNodeID, ih]

/-! ### Characterisation of `sortNodes` -/

theorem sortNodes_nodes (b : Beam) :
    (sortNodes b).nodes =
      resetNodeID 0 ((sortPerm b).map (fun i => b.nodes.getD i default)) := rfl

theorem sortNodes_pointLoads (b : Beam) :
    (sortNodes b).pointLoads =
      remapPointLoads b.pointLoads (getNodeIDs b) (sortPerm b) := rfl

theorem sortNodes_ndf (b : Beam) : (sortNodes b).ndf = b.ndf := rfl

theorem sortNodes_Nnodes (b : Beam) : (sortNodes b).Nnodes = b.Nnodes := rfl

theorem sortNodes_nodeCoords (b : Beam) :
    (sortNodes b).nodeCoords = b.nodeCoords := rfl

theorem sortNodes_eleLoads (b : Beam) :
    (sortNodes b).eleLoads = b.eleLoads := rfl

theorem sortPerm_length (b : Beam) : (sortPerm b).length = b.nodes.length := by
  simpa using argsort_length (b.nodes.map (fun n => n.x))

theorem sortPerm_getD_lt (b : Beam) {j : Nat} (h : j < b.nodes.length) :
    (sortPerm b).getD j 0 < b.nodes.length := by
  have hj : j < (sortPerm b).length := by rw [sortPerm_length]; exact h
  have hmem : (sortPerm b).get ⟨j, hj⟩ ∈ sortPerm b := List.get_mem _ _ hj
  have := (mem_argsort (b.nodes.map (fun n => n.x))).mp hmem
  rw [getD_eq_get _ _ hj]
  simpa using this

theorem sortNodes_length (b : Beam) :
    (sortNodes b).nodes.length = b.nodes.length := by
  rw [sortNodes_nodes, resetNodeID_length, List.length_map, sortPerm_length]

theorem sortNodes_getD (b : Beam) (j : Nat) (h : j < b.nodes.length) :
    (sortNodes b).nodes.getD j default =
      { b.nodes.getD ((sortPerm b).getD j 0) default with ID := j + 1 } := by
  have hj : j < (sortPerm b).length := by rw [sortPerm_length]; exact h
  have hjm : j < ((sortPerm b).map (fun i => b.nodes.getD i default)).length := by
    rw [List.length_map]; exact hj
  have hres : j < (resetNodeID 0 ((sortPerm b).map (fun i => b.nodes.getD i default))).length := by
    rw [resetNodeID_length]; exact hjm
  have hr := resetNodeID_get 0 ((sortPerm b).map (fun i => b.nodes.getD i default)) j hjm
  calc (sortNodes b).nodes.getD j default
      = (resetNodeID 0 ((sortPerm b).map (fun i => b.nodes.getD i default))).get
          ⟨j, hres⟩ := getD_eq_get _ default hres
    _ = { ((sortPerm b).map (fun i => b.nodes.getD i default)).get ⟨j, hjm⟩ with
          ID := 0 + j + 1 } := hr
    _ = { b.nodes.getD ((sortPerm b).get ⟨j, hj⟩) default with ID := 0 + j + 1 } := by
        rw [List.get_map]
    _ = { b.nodes.getD ((sortPerm b).getD j 0) default with ID := j + 1 } := by
        rw [Nat.zero_add, getD_eq_get (sortPerm b) 0 hj]

theorem sortNodes_map_x (b : Beam) :
    (sortNodes b).nodes.map (fun n => n.x) =
      (sortPerm b).map (fun i => (b.nodes.getD i default).x) := by
  rw [sortNodes_nodes, resetNodeID_map_x, List.map_map]
  rfl

theorem sortNodes_map_x_perm (b : Beam) :
    ((sortNodes b).nodes.map (fun n => n.x)).Perm (b.nodes.map (fun n => n.x)) := by
  rw [sortNodes_map_x]
  have hp : (sortPerm b).Perm (List.range b.nodes.length) := by
    have := argsort_perm (b.nodes.map (fun n => n.x))
    simpa using this
  have hmap := hp.map (fun i => (b.nodes.getD i default).x)
  have hiden : (List.range b.nodes.length).map (fun i => (b.nodes.getD i default).x)
      = b.nodes.map (fun n => n.x) := by
    have h2 := congrArg (List.map (fun n : Node => n.x)) (map_getD_range b.nodes default)
    rw [List.map_map] at h2
    exact h2
  rw [hiden] at hmap
  exact hmap

theorem sortNodes_sorted (b : Beam)
    (hnd : (b.nodes.map (fun n => n.x)).Nodup) :
    List.Pairwise (· < ·) ((sortNodes b).nodes.map (fun n => n.x)) := by
  have hle : List.Pairwise (· ≤ ·) ((sortNodes b).nodes.map (fun n => n.x)) := by
    rw [sortNodes_map_x]
    have hs := argsort_sorted (b.nodes.map (fun n => n.x))
    have hcongr : (sortPerm b).map (fun i => (b.nodes.getD i default).x)
        = (sortPerm b).map (fun i => (b.nodes.map (fun n => n.x)).getD i 0) := by
      apply List.map_congr_left
      intro i hi
      have hilt : i < b.nodes.length := by
        have := (mem_argsort (b.nodes.map (fun n => n.x))).mp hi
        simpa using this
      have hmlt : i < (b.nodes.map (fun n => n.x)).length := by
        rw [List.length_map]; exact hilt
      rw [getD_eq_get b.nodes default hilt, getD_eq_get _ 0 hmlt, List.get_map]
    rw [hcongr]
    exact List.pairwise_map.mpr hs
  have hnd' : ((sortNodes b).nodes.map (fun n => n.x)).Nodup :=
    (sortNodes_map_x_perm b).symm.nodup hnd
  exact List.Sorted.lt_of_le hle hnd'

/-! ### The registry invariant -/

theorem getD_map_lt {α β : Type _} (f : α → β) (l : List α) (d : α) (e : β) {k : Nat}
    (hk : k < l.length) : (l.map f).getD k e = f (l.getD k d) := by
  have hm : k < (l.map f).length := by rw [List.length_map]; exact hk
  rw [getD_eq_get _ e hm, getD_eq_get l d hk, List.get_eq_getElem, List.get_eq_getElem,
    List.getElem_map]

theorem getNodeIDs_eq (b : Beam)
    (hids : ∀ i, i < b.nodes.length → (b.nodes.getD i default).ID = i + 1) :
    getNodeIDs b = (List.range b.nodes.length).map (fun i => i + 1) := by
  apply List.ext_get
  · simp [getNodeIDs]
  · intro n h1 h2
    have hn : n < b.nodes.length := by
      simpa [getNodeIDs] using h1
    have hid := hids n hn
    rw [getD_eq_get b.nodes default hn] at hid
    simp only [getNodeIDs, List.get_eq_getElem, List.getElem_map, List.getElem_range]
    rw [List.get_eq_getElem] at hid
    exact hid

theorem sortedIDs_eq (b : Beam)
    (hids : ∀ i, i < b.nodes.length → (b.nodes.getD i default).ID = i + 1) :
    (sortPerm b).map (fun t => (getNodeIDs b).getD t 0) =
      (sortPerm b).map (fun t => t + 1) := by
  apply List.map_congr_left
  intro i hi
  have hilt : i < b.nodes.length := by
    simpa using (mem_argsort _).mp hi
  rw [getNodeIDs_eq b hids]
  have hlt : i < ((List.range b.nodes.length).map (fun t => t + 1)).length := by
    simpa using hilt
  rw [getD_eq_get _ 0 hlt]
  simp

theorem remapPointLoads_getD (loads : List PointLoad) (oldIDs p : List Nat) (k : Nat)
    (hk : k < loads.length) :
    (remapPointLoads loads oldIDs p).getD k default =
      { loads.getD k default with
        nodeID := (p.map (fun i => oldIDs.getD i 0)).indexOf
          (loads.getD k default).nodeID + 1 } := by
  have hrw : remapPointLoads loads oldIDs p =
      loads.map (fun L =>
        { L with nodeID := (p.map (fun i => oldIDs.getD i 0)).indexOf L.nodeID + 1 }) := rfl
  rw [hrw, getD_map_lt _ _ default _ hk]

theorem remapPointLoads_length (loads : List PointLoad) (oldIDs p : List Nat) :
    (remapPointLoads loads oldIDs p).length = loads.length := by
  have hrw : remapPointLoads loads oldIDs p =
      loads.map (fun L =>
        { L with nodeID := (p.map (fun i => oldIDs.getD i 0)).indexOf L.nodeID + 1 }) := rfl
  rw [hrw, List.length_map]

/-- The heart of the resort/remap contract: after `_sortNodes`, the point
load stored at index `k` is the old load re-anchored at the new index `j`
of the very node it referenced before the sort. -/
theorem sortNodes_anchor (b : Beam)
    (hids : ∀ i, i < b.nodes.length → (b.nodes.getD i default).ID = i + 1)
    {k : Nat} (hk : k < b.pointLoads.length)
    (hlo : 1 ≤ (b.pointLoads.getD k default).nodeID)
    (hhi : (b.pointLoads.getD k default).nodeID ≤ b.nodes.length) :
    ∃ j, j < b.nodes.length ∧
      (sortNodes b).pointLoads.getD k default =
        { b.pointLoads.getD k default with nodeID := j + 1 } ∧
      (sortNodes b).nodes.getD j default =
        { b.nodes.getD ((b.pointLoads.getD k default).nodeID - 1) default with
          ID := j + 1 } := by
  set L := b.pointLoads.getD k default with hL
  set i := L.nodeID - 1 with hi_def
  have hi : i < b.nodes.length := by omega
  have hmem : i ∈ sortPerm b := by
    apply (mem_argsort _).mpr
    simpa using hi
  set j := (sortPerm b).indexOf i with hj_def
  have hjlt : j < (sortPerm b).length := List.indexOf_lt_length.mpr hmem
  have hjn : j < b.nodes.length := by rw [← sortPerm_length b]; exact hjlt
  have hpj : (sortPerm b).getD j 0 = i := by
    rw [getD_eq_get _ 0 hjlt]
    exact List.indexOf_get hjlt
  refine ⟨j, hjn, ?_, ?_⟩
  · rw [sortNodes_pointLoads, remapPointLoads_getD _ _ _ k hk, sortedIDs_eq b hids]
    have hLid : L.nodeID = i + 1 := by omega
    rw [← hL, hLid, indexOf_map_succ]
  · rw [sortNodes_getD b j hjn, hpj]

theorem WF_sortNodes {b : Beam} (h : WF b) : WF (sortNodes b) := by
  constructor
  · rw [sortNodes_Nnodes, sortNodes_length]; exact h.count
  · intro q
    rw [sortNodes_nodeCoords, (sortNodes_map_x_perm b).mem_iff]
    exact h.coords q
  · exact (sortNodes_map_x_perm b).symm.nodup h.nodup
  · intro i hi
    rw [sortNodes_length] at hi
    rw [sortNodes_getD b i hi]
  · intro L hL
    rw [sortNodes_pointLoads] at hL
    obtain ⟨⟨k, hk⟩, hget⟩ := List.mem_iff_get.mp hL
    have hk' : k < b.pointLoads.length := by
      rw [remapPointLoads_length] at hk
      exact hk
    have hb := h.loads (b.pointLoads.getD k default) (by
      rw [getD_eq_get _ default hk']
      exact List.get_mem _ _ hk')
    obtain ⟨j, hjn, hload, _⟩ := sortNodes_anchor b h.ids hk' hb.1 hb.2
    have hLd : L = (sortNodes b).pointLoads.getD k default := by
      rw [sortNodes_pointLoads, getD_eq_get _ default hk]
      exact hget.symm
    rw [hLd, hload, sortNodes_length]
    exact ⟨Nat.succ_le_succ (Nat.zero_le j), hjn⟩

/-! ### `List.set` / append helpers -/

theorem getD_set_eq {α : Type _} (l : List α) (i : Nat) (a d : α) (h : i < l.length) :
    (l.set i a).getD i d = a := by
  have h' : i < (l.set i a).length := by rw [List.length_set]; exact h
  rw [getD_eq_get _ d h', List.get_eq_getElem, List.getElem_set_self]

theorem getD_set_ne {α : Type _} (l : List α) {i j : Nat} (a d : α) (hne : i ≠ j) :
    (l.set i a).getD j d = l.getD j d := by
  by_cases hj : j < l.length
  · have h' : j < (l.set i a).length := by rw [List.length_set]; exact hj
    rw [getD_eq_get _ d h', getD_eq_get l d hj, List.get_eq_getElem, List.get_eq_getElem,
      List.getElem_set_ne hne]
  · have h1 : (l.set i a).length ≤ j := by rw [List.length_set]; omega
    have h2 : l.length ≤ j := by omega
    rw [List.getD_eq_getElem?_getD, List.getD_eq_getElem?_getD,
      List.getElem?_eq_none h1, List.getElem?_eq_none h2]

theorem set_getD_self {α : Type _} : ∀ (l : List α) (i : Nat) (d : α),
    l.set i (l.getD i d) = l := by
  intro l
  induction l with
  | nil => intro i d; rfl
  | cons a rest ih =>
    intro i d
    cases i with
    | zero => rfl
    | succ j => simp only [List.set, List.getD_cons_succ, ih]

theorem getD_append_lt {α : Type _} (l l' : List α) (d : α) {i : Nat}
    (h : i < l.length) : (l ++ l').getD i d = l.getD i d := by
  have h' : i < (l ++ l').length := by rw [List.length_append]; omega
  rw [getD_eq_get _ d h', getD_eq_get l d h, List.get_eq_getElem, List.get_eq_getElem,
    List.getElem_append_left h]

theorem getD_append_len {α : Type _} (l : List α) (a d : α) :
    (l ++ [a]).getD l.length d = a := by
  have h' : l.length < (l ++ [a]).length := by simp
  rw [getD_eq_get _ d h', List.get_eq_getElem,
    List.getElem_append_right (Nat.le_refl _)]
  simp

/-! ### Invariant preservation for each mutating operation -/

theorem WF_set {b : Beam} (h : WF b) {index : Nat} (hidx : index < b.nodes.length)
    (nd : Node) (hx : nd.x = (b.nodes.getD index default).x)
    (hID : nd.ID = (b.nodes.getD index default).ID) :
    WF { b with nodes := b.nodes.set index nd } := by
  have hmapx : (b.nodes.set index nd).map (fun n => n.x) = b.nodes.map (fun n => n.x) := by
    rw [List.map_set, hx]
    have : (b.nodes.getD index default).x
        = (b.nodes.map (fun n => n.x)).getD index (default : Node).x :=
      (getD_map_lt (fun n => n.x) b.nodes default (default : Node).x hidx).symm
    rw [this, set_getD_self]
  constructor
  · simp only [List.length_set]; exact h.count
  · intro q; rw [hmapx]; exact h.coords q
  · rw [hmapx]; exact h.nodup
  · intro i hi
    rw [List.length_set] at hi
    by_cases hii : index = i
    · subst hii
      rw [getD_set_eq _ _ _ _ hidx, hID]
      exact h.ids index hidx
    · rw [getD_set_ne _ _ _ hii]
      exact h.ids i hi
  · intro L hL
    simp only [List.length_set]
    exact h.loads L hL

theorem addNode_of_mem {b : Beam} {x : ℚ} {f : Option (List ℤ)} {l : Option String}
    {s : Bool} (hmem : x ∈ b.nodeCoords) {index : Nat}
    (hfind : findNode x b.nodes = some index) :
    addNode b x f l s =
      ({ b with nodes := b.nodes.set index (mergedNode b x f l index) }, 0) := by
  simp [addNode, hmem, hfind, mergedNode]

theorem addNode_of_not_mem {b : Beam} {x : ℚ} {f : Option (List ℤ)} {l : Option String}
    {s : Bool} (hmem : x ∉ b.nodeCoords) :
    addNode b x f l s =
      (addNewNode b (mkNode x (f.getD (List.replicate b.ndf 0)) l) s, 1) := by
  simp [addNode, hmem]

theorem WF_addNewNode {b : Beam} (h : WF b) {nd : Node}
    (hx : nd.x ∉ b.nodes.map (fun n => n.x)) (s : Bool) :
    WF (addNewNode b nd s) := by
  have hpre : WF { b with
      Nnodes := b.Nnodes + 1,
      nodes := b.nodes ++ [{ nd with ID := b.Nnodes + 1 }],
      nodeCoords := insert nd.x b.nodeCoords } := by
    constructor
    · simp [h.count]
    · intro q
      simp only [Finset.mem_insert, List.map_append, List.mem_append, h.coords q,
        List.map_cons, List.map_nil, List.mem_singleton]
      tauto
    · simp only [List.map_append, List.map_cons, List.map_nil, List.nodup_append]
      refine ⟨h.nodup, List.nodup_singleton _, ?_⟩
      intro a ha hb
      simp only [List.mem_singleton] at hb
      subst hb
      exact hx ha
    · intro i hi
      simp only [List.length_append, List.length_cons, List.length_nil] at hi
      by_cases hlt : i < b.nodes.length
      · rw [getD_append_lt _ _ _ hlt]
        exact h.ids i hlt
      · have hieq : i = b.nodes.length := by omega
        subst hieq
        rw [getD_append_len]
        simp [h.count]
    · intro L hL
      have := h.loads L hL
      simp only [List.length_append, List.length_cons, List.length_nil]
      omega
  unfold addNewNode
  by_cases hs : s = true
  · rw [hs]
    simpa using WF_sortNodes hpre
  · have hs' : s = false := by
      cases s
      · rfl
      · exact absurd rfl hs
    rw [hs']
    simpa using hpre

theorem WF_addNode {b : Beam} (h : WF b) (x : ℚ) (f : Option (List ℤ))
    (l : Option String) (s : Bool) : WF (addNode b x f l s).1 := by
  by_cases hmem : x ∈ b.nodeCoords
  · obtain ⟨index, hfind⟩ := findNode_mem b.nodes x ((h.coords x).mp hmem)
    obtain ⟨hidx, hxeq⟩ := findNode_some b.nodes x index hfind
    rw [addNode_of_mem hmem hfind]
    refine WF_set h hidx _ ?_ ?_
    · show x = (b.nodes.getD index default).x
      rw [getD_eq_get _ default hidx]
      exact hxeq.symm
    · rfl
  · rw [addNode_of_not_mem hmem]
    refine WF_addNewNode h ?_ s
    show (mkNode x (f.getD (List.replicate b.ndf 0)) l).x ∉ b.nodes.map (fun n => n.x)
    intro hin
    exact hmem ((h.coords x).mpr hin)

theorem addNode_flag {b : Beam} (h : WF b) (x : ℚ) (f : Option (List ℤ))
    (l : Option String) (s : Bool) :
    (addNode b x f l s).2 = 0 ∨ (addNode b x f l s).2 = 1 := by
  by_cases hmem : x ∈ b.nodeCoords
  · obtain ⟨index, hfind⟩ := findNode_mem b.nodes x ((h.coords x).mp hmem)
    rw [addNode_of_mem hmem hfind]
    exact Or.inl rfl
  · rw [addNode_of_not_mem hmem]
    exact Or.inr rfl

theorem addLabel_of_mem {b : Beam} {x : ℚ} {label : Option String} {s : Bool}
    (hmem : x ∈ b.nodeCoords) {index : Nat}
    (hfind : findNode x b.nodes = some index) :
    addLabel b x label s =
      ({ b with nodes := b.nodes.set index (relabeledNode b label index) }, 0) := by
  simp [addLabel, hmem, hfind, relabeledNode]

theorem addLabel_of_not_mem {b : Beam} {x : ℚ} {label : Option String} {s : Bool}
    (hmem : x ∉ b.nodeCoords) :
    addLabel b x label s =
      (addNewNode b (mkNode x (List.replicate b.ndf 0) label) s, 1) := by
  simp [addLabel, hmem]

theorem WF_addLabel {b : Beam} (h : WF b) (x : ℚ) (label : Option String)
    (s : Bool) : WF (addLabel b x label s).1 := by
  by_cases hmem : x ∈ b.nodeCoords
  · obtain ⟨index, hfind⟩ := findNode_mem b.nodes x ((h.coords x).mp hmem)
    obtain ⟨hidx, _⟩ := findNode_some b.nodes x index hfind
    rw [addLabel_of_mem hmem hfind]
    exact WF_set h hidx _ rfl rfl
  · rw [addLabel_of_not_mem hmem]
    refine WF_addNewNode h ?_ s
    show (mkNode x (List.replicate b.ndf 0) label).x ∉ b.nodes.map (fun n => n.x)
    intro hin
    exact hmem ((h.coords x).mpr hin)

theorem refixedNode_x (b : Beam) (fix : List ℤ) (label : Option String)
    (index : Nat) : (refixedNode b fix label index).x = (b.nodes.getD index default).x := by
  unfold refixedNode
  by_cases ht : truthy label = true <;> simp [ht]

theorem refixedNode_ID (b : Beam) (fix : List ℤ) (label : Option String)
    (index : Nat) : (refixedNode b fix label index).ID = (b.nodes.getD index default).ID := by
  unfold refixedNode
  by_cases ht : truthy label = true <;> simp [ht]

theorem setFixity_of_mem {b : Beam} {x : ℚ} {f : FixityInput} {label : Option String}
    (hchk : checkfixityInput b.ndf (convertFixityInput b.ndf f) = true)
    (hmem : x ∈ b.nodeCoords) {index : Nat}
    (hfind : findNode x b.nodes = some index) :
    setFixity b x f label =
      some { b with
        nodes := b.nodes.set index (refixedNode b (convertFixityInput b.ndf f) label index) } := by
  simp [setFixity, hchk, hmem, hfind, refixedNode]

theorem setFixity_of_not_mem {b : Beam} {x : ℚ} {f : FixityInput} {label : Option String}
    (hchk : checkfixityInput b.ndf (convertFixityInput b.ndf f) = true)
    (hmem : x ∉ b.nodeCoords) :
    setFixity b x f label =
      some (addNode b x (some (convertFixityInput b.ndf f)) label true).1 := by
  simp [setFixity, hchk, hmem]

theorem setFixity_of_bad {b : Beam} {x : ℚ} {f : FixityInput} {label : Option String}
    (hchk : checkfixityInput b.ndf (convertFixityInput b.ndf f) = false) :
    setFixity b x f label = none := by
  simp [setFixity, hchk]

theorem WF_setFixity {b b' : Beam} (h : WF b) {x : ℚ} {f : FixityInput}
    {label : Option String} (hs : setFixity b x f label = some b') : WF b' := by
  by_cases hchk : checkfixityInput b.ndf (convertFixityInput b.ndf f) = true
  · by_cases hmem : x ∈ b.nodeCoords
    · obtain ⟨index, hfind⟩ := findNode_mem b.nodes x ((h.coords x).mp hmem)
      obtain ⟨hidx, _⟩ := findNode_some b.nodes x index hfind
      rw [setFixity_of_mem hchk hmem hfind, Option.some.injEq] at hs
      rw [← hs]
      exact WF_set h hidx _ (refixedNode_x b _ label index) (refixedNode_ID b _ label index)
    · rw [setFixity_of_not_mem hchk hmem, Option.some.injEq] at hs
      rw [← hs]
      exact WF_addNode h x _ label true
  · rw [setFixity_of_bad (Bool.eq_false_iff.mpr hchk)] at hs
    exact absurd hs (by simp)

theorem addNode_nodeCoords {b : Beam} (x : ℚ) (f : Option (List ℤ))
    (l : Option String) (s : Bool) :
    x ∈ ((addNode b x f l s).1).nodeCoords := by
  by_cases hmem : x ∈ b.nodeCoords
  · rcases hf : findNode x b.nodes with _ | index
    · simp [addNode, hmem, hf]
    · rw [addNode_of_mem hmem hf]
      exact hmem
  · rw [addNode_of_not_mem hmem]
    unfold addNewNode
    by_cases hs : s = true <;> simp [hs, sortNodes_nodeCoords, mkNode]

theorem WF_attach {b : Beam} (h : WF b) {index : Nat} (hidx : index < b.nodes.length)
    (nd : Node) (hx : nd.x = (b.nodes.getD index default).x)
    (hID : nd.ID = (b.nodes.getD index default).ID)
    (L : PointLoad) (hL : 1 ≤ L.nodeID ∧ L.nodeID ≤ b.nodes.length) :
    WF { b with nodes := b.nodes.set index nd, pointLoads := b.pointLoads ++ [L] } := by
  have h1 := WF_set h hidx nd hx hID
  constructor
  · exact h1.count
  · exact h1.coords
  · exact h1.nodup
  · exact h1.ids
  · intro L' hL'
    simp only [List.length_set]
    rcases List.mem_append.mp hL' with hmemL | hmemL
    · exact h.loads L' hmemL
    · simp only [List.mem_singleton] at hmemL
      subst hmemL
      exact hL

theorem loadedNode_x (b : Beam) (label : String) (loadID index : Nat) :
    (loadedNode b label loadID index).x = (b.nodes.getD index default).x := by
  unfold loadedNode
  by_cases hl : (label != "") = true <;> simp [hl]

theorem loadedNode_ID (b : Beam) (label : String) (loadID index : Nat) :
    (loadedNode b label loadID index).ID = (b.nodes.getD index default).ID := by
  unfold loadedNode
  by_cases hl : (label != "") = true <;> simp [hl]

theorem attachPointLoad_eq (b : Beam) (x : ℚ) (P : List ℚ) (label : String)
    (loadID index : Nat) :
    attachPointLoad b x P label loadID index =
      { b with
        nodes := b.nodes.set index (loadedNode b label loadID index),
        pointLoads := b.pointLoads ++ [{ P := P, x := x, nodeID := index + 1, label := "" }] } := by
  unfold attachPointLoad loadedNode
  by_cases hl : (label != "") = true <;> simp [hl]

theorem WF_attachPointLoad {b : Beam} (h : WF b) (x : ℚ) (P : List ℚ)
    (label : String) (loadID : Nat) {index : Nat} (hidx : index < b.nodes.length) :
    WF (attachPointLoad b x P label loadID index) := by
  rw [attachPointLoad_eq]
  refine WF_attach h hidx _ ?_ ?_ _ ?_
  · exact loadedNode_x b label loadID index
  · exact loadedNode_ID b label loadID index
  · exact ⟨Nat.succ_le_succ (Nat.zero_le _), hidx⟩

theorem addPointLoad_eq {b : Beam} {x : ℚ} (P : List ℚ) (label : String)
    {index : Nat}
    (hfind : findNode x (if x ∈ b.nodeCoords then b
      else (addNode b x none (some "") true).1).nodes = some index) :
    addPointLoad b x P label =
      attachPointLoad (if x ∈ b.nodeCoords then b else (addNode b x none (some "") true).1)
        x P label (b.pointLoads.length + 1) index := by
  simp only [addPointLoad]
  rw [hfind]

theorem WF_addPointLoad {b : Beam} (h : WF b) (x : ℚ) (P : List ℚ)
    (label : String) : WF (addPointLoad b x P label) := by
  have hb1 : WF (if x ∈ b.nodeCoords then b else (addNode b x none (some "") true).1) := by
    by_cases hmem : x ∈ b.nodeCoords
    · simpa [hmem] using h
    · simpa [hmem] using WF_addNode h x none (some "") true
  have hx1 : x ∈ (if x ∈ b.nodeCoords then b
      else (addNode b x none (some "") true).1).nodeCoords := by
    by_cases hmem : x ∈ b.nodeCoords
    · simpa [hmem] using hmem
    · simpa [hmem] using addNode_nodeCoords x none (some "") true
  obtain ⟨index, hfind⟩ := findNode_mem _ x ((hb1.coords x).mp hx1)
  obtain ⟨hidx, _⟩ := findNode_some _ x index hfind
  rw [addPointLoad_eq P label hfind]
  exact WF_attachPointLoad hb1 x P label _ hidx

theorem WF_eleLoads {b : Beam} (h : WF b) (e : List EleLoad) :
    WF { b with eleLoads := e } := by
  constructor
  · exact h.count
  · exact h.coords
  · exact h.nodup
  · exact h.ids
  · exact h.loads

theorem WF_addDistLoad {b : Beam} (h : WF b) (x1 x2 : ℚ) (dl : List ℚ)
    (label : String) : WF (addDistLoad b x1 x2 dl label) := by
  have h1 : WF (if x1 ∈ b.nodeCoords then b
      else (addNode b x1 (some (List.replicate b.ndf 0)) (some "") true).1) := by
    by_cases hmem : x1 ∈ b.nodeCoords
    · simpa [hmem] using h
    · simpa [hmem] using WF_addNode h x1 (some (List.replicate b.ndf 0)) (some "") true
  have h2 : WF (if x2 ∈ (if x1 ∈ b.nodeCoords then b
        else (addNode b x1 (some (List.replicate b.ndf 0)) (some "") true).1).nodeCoords
      then (if x1 ∈ b.nodeCoords then b
        else (addNode b x1 (some (List.replicate b.ndf 0)) (some "") true).1)
      else (addNode (if x1 ∈ b.nodeCoords then b
        else (addNode b x1 (some (List.replicate b.ndf 0)) (some "") true).1)
        x2 (some (List.replicate b.ndf 0)) (some "") true).1) := by
    by_cases hmem : x2 ∈ (if x1 ∈ b.nodeCoords then b
        else (addNode b x1 (some (List.replicate b.ndf 0)) (some "") true).1).nodeCoords
    · simpa [hmem] using h1
    · simpa [hmem] using WF_addNode h1 x2 (some (List.replicate b.ndf 0)) (some "") true
  exact WF_eleLoads h2 _

theorem WF_foldl_addNode (F : Nat → ℚ) (Ff : Nat → Option (List ℤ))
    (Fl : Nat → Option String) :
    ∀ (l : List Nat) {b : Beam}, WF b →
      WF (l.foldl (fun acc ii => (addNode acc (F ii) (Ff ii) (Fl ii) false).1) b) := by
  intro l
  induction l with
  | nil => intro b h; exact h
  | cons a rest ih =>
    intro b h
    exact ih (WF_addNode h (F a) (Ff a) (Fl a) false)

theorem WF_addNodes {b : Beam} (h : WF b) (xCoords : List ℚ)
    (fixities : Option (List (List ℤ))) (labels : Option (List (Option String))) :
    WF (addNodes b xCoords fixities labels) := by
  unfold addNodes
  exact WF_sortNodes (WF_foldl_addNode _ _ _ _ h)

theorem WF_emptyBeam (ndf : Nat) : WF (emptyBeam ndf) := by
  constructor
  · rfl
  · intro q; simp [emptyBeam]
  · simp [emptyBeam]
  · intro i hi; simp [emptyBeam] at hi
  · intro L hL; simp [emptyBeam] at hL

/-- Every state reachable through the public builder API satisfies the
registry invariant. -/
theorem Reachable.toWF {b : Beam} (h : Reachable b) : WF b := by
  induction h with
  | init2D => exact WF_emptyBeam 3
  | init3D => exact WF_emptyBeam 6
  | step_addNode x fixity label sort _ ih => exact WF_addNode ih x fixity label sort
  | step_addLabel x label sort _ ih => exact WF_addLabel ih x label sort
  | step_addNodes xCoords fixities labels _ ih => exact WF_addNodes ih xCoords fixities labels
  | step_setFixity x f label _ hs ih => exact WF_setFixity ih hs
  | step_addPointLoad x pointLoad label _ ih => exact WF_addPointLoad ih x pointLoad label
  | step_addDistLoad x1 x2 distLoad label _ ih => exact WF_addDistLoad ih x1 x2 distLoad label

/-! ### The pre-sort state of `_addNewNode`, and node correspondence across
a sort -/

theorem addNewNode_eq (b : Beam) (nd : Node) (s : Bool) :
    addNewNode b nd s = if s then sortNodes (appendNode b nd) else appendNode b nd := rfl

theorem WF_appendNode {b : Beam} (h : WF b) {nd : Node}
    (hx : nd.x ∉ b.nodes.map (fun n => n.x)) : WF (appendNode b nd) := by
  constructor
  · simp [appendNode, h.count]
  · intro q
    simp only [appendNode, Finset.mem_insert, List.map_append, List.mem_append,
      h.coords q, List.map_cons, List.map_nil, List.mem_singleton]
    tauto
  · simp only [appendNode, List.map_append, List.map_cons, List.map_nil, List.nodup_append]
    refine ⟨h.nodup, List.nodup_singleton _, ?_⟩
    intro a ha hb
    simp only [List.mem_singleton] at hb
    subst hb
    exact hx ha
  · intro i hi
    simp only [appendNode, List.length_append, List.length_cons, List.length_nil] at hi
    by_cases hlt : i < b.nodes.length
    · show ((b.nodes ++ [{ nd with ID := b.Nnodes + 1 }]).getD i default).ID = i + 1
      rw [getD_append_lt _ _ _ hlt]
      exact h.ids i hlt
    · have hieq : i = b.nodes.length := by omega
      subst hieq
      show ((b.nodes ++ [{ nd with ID := b.Nnodes + 1 }]).getD b.nodes.length default).ID
        = b.nodes.length + 1
      rw [getD_append_len]
      simp [h.count]
  · intro L hL
    have := h.loads L hL
    simp only [appendNode, List.length_append, List.length_cons, List.length_nil]
    omega

theorem sortPerm_getD_inj (b : Beam) {j1 j2 : Nat} (h1 : j1 < b.nodes.length)
    (h2 : j2 < b.nodes.length)
    (he : (sortPerm b).getD j1 0 = (sortPerm b).getD j2 0) : j1 = j2 := by
  have hl1 : j1 < (sortPerm b).length := by rw [sortPerm_length]; exact h1
  have hl2 : j2 < (sortPerm b).length := by rw [sortPerm_length]; exact h2
  rw [getD_eq_get _ 0 hl1, getD_eq_get _ 0 hl2] at he
  have hnd : (sortPerm b).Nodup := by
    unfold sortPerm
    exact argsort_nodup _
  have := (hnd.get_inj_iff).mp he
  exact congrArg Fin.val this

/-- Every pre-sort node index `i` has a post-sort position `j` with
`sortPerm b` sending `j` back to `i`. -/
theorem sortNodes_node_surj (b : Beam) {i : Nat} (hi : i < b.nodes.length) :
    ∃ j, j < b.nodes.length ∧ (sortPerm b).getD j 0 = i := by
  have hmem : i ∈ sortPerm b := by
    apply (mem_argsort _).mpr
    simpa using hi
  have hjlt : (sortPerm b).indexOf i < (sortPerm b).length :=
    List.indexOf_lt_length.mpr hmem
  refine ⟨(sortPerm b).indexOf i, by rw [← sortPerm_length b]; exact hjlt, ?_⟩
  rw [getD_eq_get _ 0 hjlt]
  exact List.indexOf_get hjlt

theorem addNode_pointLoads_length (b : Beam) (x : ℚ) (f : Option (List ℤ))
    (l : Option String) (s : Bool) :
    ((addNode b x f l s).1).pointLoads.length = b.pointLoads.length := by
  by_cases hmem : x ∈ b.nodeCoords
  · rcases hf : findNode x b.nodes with _ | index
    · simp [addNode, hmem, hf]
    · rw [addNode_of_mem hmem hf]
  · rw [addNode_of_not_mem hmem, addNewNode_eq]
    by_cases hs : s = true
    · subst hs
      simp only [if_pos]
      rw [sortNodes_pointLoads, remapPointLoads_length]
      rfl
    · have hs' : s = false := Bool.eq_false_iff.mpr hs
      subst hs'
      rfl

/-! ### Point-load anchoring (the load remap invariant) -/

theorem loadAnchored_sortNodes {b : Beam} (h : WF b) {k : Nat} {c : ℚ}
    (ha : loadAnchored b k c) : loadAnchored (sortNodes b) k c := by
  obtain ⟨hk, i, hi, hx, hID⟩ := ha
  have hmemL : b.pointLoads.getD k default ∈ b.pointLoads := by
    rw [getD_eq_get _ default hk]
    exact List.get_mem _ _ hk
  have hb := h.loads (b.pointLoads.getD k default) hmemL
  obtain ⟨j, hjn, hload, hnode⟩ := sortNodes_anchor b h.ids hk hb.1 hb.2
  refine ⟨?_, j, by rwa [sortNodes_length], ?_, ?_⟩
  · rw [sortNodes_pointLoads, remapPointLoads_length]
    exact hk
  · rw [hnode]
    have hi1 : (b.pointLoads.getD k default).nodeID - 1 = i := by omega
    rw [hi1]
    exact hx
  · rw [hload]

theorem loadAnchored_appendNode {b : Beam} {k : Nat} {c : ℚ}
    (ha : loadAnchored b k c) (nd : Node) : loadAnchored (appendNode b nd) k c := by
  obtain ⟨hk, i, hi, hx, hID⟩ := ha
  refine ⟨hk, i, ?_, ?_, hID⟩
  · simp only [appendNode, List.length_append, List.length_cons, List.length_nil]
    omega
  · show ((b.nodes ++ [{ nd with ID := b.Nnodes + 1 }]).getD i default).x = c
    rw [getD_append_lt _ _ _ hi]
    exact hx

theorem loadAnchored_addNode {b : Beam} (h : WF b) {k : Nat} {c : ℚ}
    (ha : loadAnchored b k c) (x : ℚ) (f : Option (List ℤ)) (l : Option String)
    (s : Bool) : loadAnchored ((addNode b x f l s).1) k c := by
  obtain ⟨hk, i, hi, hx, hID⟩ := ha
  by_cases hmem : x ∈ b.nodeCoords
  · obtain ⟨index, hfind⟩ := findNode_mem b.nodes x ((h.coords x).mp hmem)
    obtain ⟨hidx, hxeq⟩ := findNode_some b.nodes x index hfind
    rw [addNode_of_mem hmem hfind]
    refine ⟨hk, i, by simpa using hi, ?_, hID⟩
    show ((b.nodes.set index (mergedNode b x f l index)).getD i default).x = c
    by_cases hii : index = i
    · subst hii
      rw [getD_set_eq _ _ _ _ hidx]
      show x = c
      rw [← hx, getD_eq_get _ default hidx]
      exact hxeq.symm
    · rw [getD_set_ne _ _ _ hii]
      exact hx
  · rw [addNode_of_not_mem hmem, addNewNode_eq]
    have hxpos : (mkNode x (f.getD (List.replicate b.ndf 0)) l).x ∉
        b.nodes.map (fun n => n.x) := by
      intro hin
      exact hmem ((h.coords x).mpr hin)
    have happ : loadAnchored (appendNode b (mkNode x (f.getD (List.replicate b.ndf 0)) l)) k c :=
      loadAnchored_appendNode ⟨hk, i, hi, hx, hID⟩ _
    by_cases hs : s = true
    · subst hs
      simpa using loadAnchored_sortNodes (WF_appendNode h hxpos) happ
    · have hs' : s = false := Bool.eq_false_iff.mpr hs
      subst hs'
      simpa using happ

theorem loadAnchored_applyOps {k : Nat} {c : ℚ} :
    ∀ (ops : List NodeOp) {b : Beam}, WF b → loadAnchored b k c →
      WF (applyOps b ops) ∧ loadAnchored (applyOps b ops) k c := by
  intro ops
  induction ops with
  | nil => exact fun h ha => ⟨h, ha⟩
  | cons op rest ih =>
    intro b h ha
    have hstep : WF (applyOp b op) ∧ loadAnchored (applyOp b op) k c := by
      cases op with
      | insert x f l s => exact ⟨WF_addNode h x f l s, loadAnchored_addNode h ha x f l s⟩
      | resort => exact ⟨WF_sortNodes h, loadAnchored_sortNodes h ha⟩
    exact ih hstep.1 hstep.2

/-- `addPointLoad` leaves the freshly created load (stored at index
`len(pointLoads)` of the pre-call state) anchored at its coordinate. -/
theorem addPointLoad_anchored {b : Beam} (h : WF b) (x : ℚ) (P : List ℚ)
    (lbl : String) : loadAnchored (addPointLoad b x P lbl) b.pointLoads.length x := by
  have hb1 : WF (if x ∈ b.nodeCoords then b else (addNode b x none (some "") true).1) := by
    by_cases hmem : x ∈ b.nodeCoords
    · simpa [hmem] using h
    · simpa [hmem] using WF_addNode h x none (some "") true
  have hx1 : x ∈ (if x ∈ b.nodeCoords then b
      else (addNode b x none (some "") true).1).nodeCoords := by
    by_cases hmem : x ∈ b.nodeCoords
    · simpa [hmem] using hmem
    · simpa [hmem] using addNode_nodeCoords x none (some "") true
  have hlen1 : (if x ∈ b.nodeCoords then b
      else (addNode b x none (some "") true).1).pointLoads.length = b.pointLoads.length := by
    by_cases hmem : x ∈ b.nodeCoords
    · simp [hmem]
    · simpa [hmem] using addNode_pointLoads_length b x none (some "") true
  obtain ⟨index, hfind⟩ := findNode_mem _ x ((hb1.coords x).mp hx1)
  obtain ⟨hidx, hxeq⟩ := findNode_some _ x index hfind
  rw [addPointLoad_eq P lbl hfind, attachPointLoad_eq]
  refine ⟨?_, index, ?_, ?_, ?_⟩
  · simp only [List.length_append, List.length_cons, List.length_nil]
    omega
  · simpa using hidx
  · show (((if x ∈ b.nodeCoords then b
        else (addNode b x none (some "") true).1).nodes.set index
        (loadedNode _ lbl _ index)).getD index default).x = x
    rw [getD_set_eq _ _ _ _ hidx, loadedNode_x, getD_eq_get _ default hidx]
    exact hxeq
  · show ((_ ++ [({ P := P, x := x, nodeID := index + 1, label := "" } : PointLoad)]).getD
        b.pointLoads.length default).nodeID = index + 1
    rw [← hlen1, getD_append_len]

/-! ### Label resolution (the label remap invariant) -/

theorem appendNode_nodes (b : Beam) (nd : Node) :
    (appendNode b nd).nodes = b.nodes ++ [{ nd with ID := b.Nnodes + 1 }] := rfl

theorem appendNode_length (b : Beam) (nd : Node) :
    (appendNode b nd).nodes.length = b.nodes.length + 1 := by
  rw [appendNode_nodes]
  simp

theorem labelResolves_sortNodes {b : Beam} (h : WF b) {L : String} {c : ℚ}
    (hl : labelResolves b L c) : labelResolves (sortNodes b) L c := by
  obtain ⟨i, hi, hx, hlab, huniq⟩ := hl
  obtain ⟨j, hj, hpj⟩ := sortNodes_node_surj b hi
  refine ⟨j, by rwa [sortNodes_length], ?_, ?_, ?_⟩
  · rw [sortNodes_getD b j hj, hpj]
    exact hx
  · rw [sortNodes_getD b j hj, hpj]
    exact hlab
  · intro j' hj' hjlab
    rw [sortNodes_length] at hj'
    rw [sortNodes_getD b j' hj'] at hjlab
    have hpj' : (sortPerm b).getD j' 0 < b.nodes.length := sortPerm_getD_lt b hj'
    have heq := huniq _ hpj' hjlab
    exact sortPerm_getD_inj b hj' hj (by rw [heq, hpj])

theorem labelResolves_appendNode {b : Beam} {L : String} {c : ℚ}
    (hl : labelResolves b L c) {nd : Node} (hnd : nd.label ≠ some L) :
    labelResolves (appendNode b nd) L c := by
  obtain ⟨i, hi, hx, hlab, huniq⟩ := hl
  refine ⟨i, ?_, ?_, ?_, ?_⟩
  · rw [appendNode_length]
    omega
  · show ((b.nodes ++ [{ nd with ID := b.Nnodes + 1 }]).getD i default).x = c
    rw [getD_append_lt _ _ _ hi]
    exact hx
  · show ((b.nodes ++ [{ nd with ID := b.Nnodes + 1 }]).getD i default).label = some L
    rw [getD_append_lt _ _ _ hi]
    exact hlab
  · intro j hj hjlab
    rw [appendNode_length] at hj
    by_cases hjlt : j < b.nodes.length
    · refine huniq j hjlt ?_
      have : ((b.nodes ++ [{ nd with ID := b.Nnodes + 1 }]).getD j default).label
          = (b.nodes.getD j default).label := by
        rw [getD_append_lt _ _ _ hjlt]
      rw [appendNode_nodes] at hjlab
      rw [this] at hjlab
      exact hjlab
    · exfalso
      have hje : j = b.nodes.length := by omega
      subst hje
      rw [appendNode_nodes, getD_append_len] at hjlab
      exact hnd hjlab

theorem labelResolves_addNode {b : Beam} (h : WF b) {L : String} {c : ℚ}
    (hl : labelResolves b L c) (x : ℚ) (f : Option (List ℤ)) (lbl : Option String)
    (s : Bool) (hxc : x ≠ c) (hlbl : lbl ≠ some L) :
    labelResolves ((addNode b x f lbl s).1) L c := by
  obtain ⟨i, hi, hx, hlab, huniq⟩ := hl
  by_cases hmem : x ∈ b.nodeCoords
  · obtain ⟨index, hfind⟩ := findNode_mem b.nodes x ((h.coords x).mp hmem)
    obtain ⟨hidx, hxeq⟩ := findNode_some b.nodes x index hfind
    rw [addNode_of_mem hmem hfind]
    have hii : index ≠ i := by
      intro hii
      subst hii
      apply hxc
      rw [← hx, getD_eq_get _ default hidx]
      exact hxeq.symm
    refine ⟨i, by simpa using hi, ?_, ?_, ?_⟩
    · show ((b.nodes.set index (mergedNode b x f lbl index)).getD i default).x = c
      rw [getD_set_ne _ _ _ hii]
      exact hx
    · show ((b.nodes.set index (mergedNode b x f lbl index)).getD i default).label = some L
      rw [getD_set_ne _ _ _ hii]
      exact hlab
    · intro j hj hjlab
      simp only [List.length_set] at hj
      by_cases hji : index = j
      · subst hji
        rw [getD_set_eq _ _ _ _ hidx] at hjlab
        exact absurd hjlab hlbl
      · rw [getD_set_ne _ _ _ hji] at hjlab
        exact huniq j hj hjlab
  · rw [addNode_of_not_mem hmem, addNewNode_eq]
    have hxpos : (mkNode x (f.getD (List.replicate b.ndf 0)) lbl).x ∉
        b.nodes.map (fun n => n.x) := fun hin => hmem ((h.coords x).mpr hin)
    have happ : labelResolves (appendNode b (mkNode x (f.getD (List.replicate b.ndf 0)) lbl)) L c :=
      labelResolves_appendNode ⟨i, hi, hx, hlab, huniq⟩ hlbl
    by_cases hs : s = true
    · subst hs
      simpa using labelResolves_sortNodes (WF_appendNode h hxpos) happ
    · have hs' : s = false := Bool.eq_false_iff.mpr hs
      subst hs'
      simpa using happ

theorem labelResolves_applyOps {L : String} {c : ℚ} :
    ∀ (ops : List NodeOp) {b : Beam}, WF b → labelResolves b L c →
      (∀ op ∈ ops, opAvoids c L op) →
      WF (applyOps b ops) ∧ labelResolves (applyOps b ops) L c := by
  intro ops
  induction ops with
  | nil => exact fun h hl _ => ⟨h, hl⟩
  | cons op rest ih =>
    intro b h hl havoid
    have hop := havoid op (List.mem_cons_self op rest)
    have hrest : ∀ o ∈ rest, opAvoids c L o :=
      fun o ho => havoid o (List.mem_cons_of_mem op ho)
    have hstep : WF (applyOp b op) ∧ labelResolves (applyOp b op) L c := by
      cases op with
      | insert x f lbl s =>
        exact ⟨WF_addNode h x f lbl s, labelResolves_addNode h hl x f lbl s hop.1 hop.2⟩
      | resort => exact ⟨WF_sortNodes h, labelResolves_sortNodes h hl⟩
    exact ih hstep.1 hstep.2 hrest

/-! ### The `Fmax` fold -/

theorem min_clamp (a F1 F2 : ℚ) :
    (if F1 < a ∨ F2 < a then min F1 F2 else a) = min a (min F1 F2) := by
  by_cases h : F1 < a ∨ F2 < a
  · rw [if_pos h]
    have hlt : min F1 F2 < a := by
      rcases h with h | h
      · exact lt_of_le_of_lt (min_le_left _ _) h
      · exact lt_of_le_of_lt (min_le_right _ _) h
    exact (min_eq_right (le_of_lt hlt)).symm
  · rw [if_neg h]
    push_neg at h
    exact (min_eq_left (le_min h.1 h.2)).symm

theorem max_clamp (a F1 F2 : ℚ) :
    (if a < F1 ∨ a < F2 then max F1 F2 else a) = max a (max F1 F2) := by
  by_cases h : a < F1 ∨ a < F2
  · rw [if_pos h]
    have hlt : a < max F1 F2 := by
      rcases h with h | h
      · exact lt_of_lt_of_le h (le_max_left _ _)
      · exact lt_of_lt_of_le h (le_max_right _ _)
    exact (max_eq_right (le_of_lt hlt)).symm
  · rw [if_neg h]
    push_neg at h
    exact (max_eq_left (max_le h.1 h.2)).symm

theorem fmaxStep_eq (ndf index : Nat) (mm : ℚ × ℚ) (nd : Node) :
    fmaxStep ndf index mm nd =
      (min mm.1 (min (nd.Fint.getD index 0) (nd.Fint.getD (index + ndf) 0)),
       max mm.2 (max (nd.Fint.getD index 0) (nd.Fint.getD (index + ndf) 0))) := by
  unfold fmaxStep
  dsimp only
  rw [min_clamp, max_clamp]

theorem Fmax_loop (ndf index : Nat) :
    ∀ (nodes : List Node) (mm : ℚ × ℚ),
      nodes.foldl (fmaxStep ndf index) mm =
        ((forceSamples ndf nodes index).foldl min mm.1,
         (forceSamples ndf nodes index).foldl max mm.2) := by
  intro nodes
  induction nodes with
  | nil => intro mm; rfl
  | cons nd rest ih =>
    intro mm
    rw [List.foldl_cons, fmaxStep_eq, ih]
    have hs : forceSamples ndf (nd :: rest) index =
        nd.Fint.getD index 0 :: nd.Fint.getD (index + ndf) 0 ::
          forceSamples ndf rest index := rfl
    rw [hs, List.foldl_cons, List.foldl_cons, List.foldl_cons, List.foldl_cons,
      min_assoc, max_assoc]

theorem Fmax_eq (b : Beam) (index : Nat) :
    Fmax b index = ((forceSamples b.ndf b.nodes index).foldl min 0,
      (forceSamples b.ndf b.nodes index).foldl max 0) :=
  Fmax_loop b.ndf index b.nodes (0, 0)

theorem foldl_min_le_init : ∀ (l : List ℚ) (a : ℚ), l.foldl min a ≤ a := by
  intro l
  induction l with
  | nil => intro a; exact le_refl a
  | cons v rest ih =>
    intro a
    exact le_trans (ih (min a v)) (min_le_left a v)

theorem foldl_min_le_mem : ∀ (l : List ℚ) (a : ℚ) (v : ℚ), v ∈ l → l.foldl min a ≤ v := by
  intro l
  induction l with
  | nil => intro a v hv; cases hv
  | cons w rest ih =>
    intro a v hv
    rcases List.mem_cons.mp hv with hv | hv
    · subst hv
      exact le_trans (foldl_min_le_init rest (min a v)) (min_le_right a v)
    · exact ih (min a w) v hv

theorem le_foldl_max_init : ∀ (l : List ℚ) (a : ℚ), a ≤ l.foldl max a := by
  intro l
  induction l with
  | nil => intro a; exact le_refl a
  | cons v rest ih =>
    intro a
    exact le_trans (le_max_left a v) (ih (max a v))

theorem le_foldl_max_mem : ∀ (l : List ℚ) (a : ℚ) (v : ℚ), v ∈ l → v ≤ l.foldl max a := by
  intro l
  induction l with
  | nil => intro a v hv; cases hv
  | cons w rest ih =>
    intro a v hv
    rcases List.mem_cons.mp hv with hv | hv
    · subst hv
      exact le_trans (le_max_right a v) (le_foldl_max_init rest (max a v))
    · exact ih (max a w) v hv

/-! ### Remaining support lemmas for the claim theorems -/

theorem sorted_after_sortNodes {b : Beam} (hwf : WF b) :
    List.Pairwise (· < ·) ((sortNodes b).nodes.map (fun n => n.x)) ∧
    ∀ i, i < (sortNodes b).nodes.length →
      ((sortNodes b).nodes.getD i default).ID = i + 1 :=
  ⟨sortNodes_sorted b hwf.nodup, (WF_sortNodes hwf).ids⟩

theorem position_unique {b : Beam} (h : WF b) {i j : Nat} (hi : i < b.nodes.length)
    (hj : j < b.nodes.length)
    (he : (b.nodes.getD i default).x = (b.nodes.getD j default).x) : i = j := by
  have hmi : i < (b.nodes.map (fun n => n.x)).length := by simpa using hi
  have hmj : j < (b.nodes.map (fun n => n.x)).length := by simpa using hj
  have hge : (b.nodes.map (fun n => n.x)).get ⟨i, hmi⟩
      = (b.nodes.map (fun n => n.x)).get ⟨j, hmj⟩ := by
    rw [List.get_map, List.get_map]
    rw [getD_eq_get _ default hi, getD_eq_get _ default hj] at he
    exact he
  exact congrArg Fin.val ((h.nodup.get_inj_iff).mp hge)

theorem checkfixityInput_iff (ndf : Nat) (l : List ℤ) :
    checkfixityInput ndf l = true ↔
      ((∀ v ∈ l, v = 0 ∨ v = 1) ∧ l.length ≠ 2 ∧ l.length ≤ ndf) := by
  simp only [checkfixityInput, Bool.and_eq_true, Bool.not_eq_true', Bool.or_eq_false_iff,
    List.all_eq_true, Bool.or_eq_true, beq_iff_eq, decide_eq_false_iff_not, not_lt]
  constructor
  · rintro ⟨ha, hb, hc⟩
    exact ⟨ha, by simpa using hb, hc⟩
  · rintro ⟨ha, hb, hc⟩
    exact ⟨ha, by simpa using hb, hc⟩

theorem refixedNode_hasReaction (b : Beam) (fix : List ℤ) (label : Option String)
    (index : Nat) : (refixedNode b fix label index).hasReaction = true := by
  unfold refixedNode
  by_cases ht : truthy label = true <;> simp [ht]

theorem refixedNode_fixity (b : Beam) (fix : List ℤ) (label : Option String)
    (index : Nat) : (refixedNode b fix label index).fixity = fix := by
  unfold refixedNode
  by_cases ht : truthy label = true <;> simp [ht]

theorem foldl_min_attained : ∀ (l : List ℚ) (a : ℚ),
    l.foldl min a = a ∨ l.foldl min a ∈ l := by
  intro l
  induction l with
  | nil => intro a; exact Or.inl rfl
  | cons v rest ih =>
    intro a
    rcases ih (min a v) with h | h
    · rcases min_cases a v with ⟨hm, _⟩ | ⟨hm, _⟩
      · exact Or.inl (by rw [List.foldl_cons, h, hm])
      · exact Or.inr (by rw [List.foldl_cons, h, hm]; exact List.mem_cons_self v rest)
    · exact Or.inr (List.mem_cons_of_mem v h)

theorem foldl_max_attained : ∀ (l : List ℚ) (a : ℚ),
    l.foldl max a = a ∨ l.foldl max a ∈ l := by
  intro l
  induction l with
  | nil => intro a; exact Or.inl rfl
  | cons v rest ih =>
    intro a
    rcases ih (max a v) with h | h
    · rcases max_cases a v with ⟨hm, _⟩ | ⟨hm, _⟩
      · exact Or.inl (by rw [List.foldl_cons, h, hm])
      · exact Or.inr (by rw [List.foldl_cons, h, hm]; exact List.mem_cons_self v rest)
    · exact Or.inr (List.mem_cons_of_mem v h)

theorem addNode_create_sorted {b : Beam} (hwf : WF b) (x : ℚ)
    (f : Option (List ℤ)) (l : Option String) (hmem : x ∉ b.nodeCoords) :
    (addNode b x f l true).1 =
      sortNodes (appendNode b (mkNode x (f.getD (List.replicate b.ndf 0)) l)) := by
  rw [addNode_of_not_mem hmem]
  rfl

/-! ### The claim theorems -/

/-- C1 (amended): in every beam state reachable through the builder API,
an actual run of the resort — the final sort of `addNodes`, or the sort
the create path of `addNode` with `sort = True` triggers — leaves the
node sequence strictly increasing in position with `node[i].ID = i + 1`
for every index.  (The merge path of `addNode` does not resort, so
`addNode` with `sort = True` at an existing coordinate can leave an
unsorted sequence unsorted — see the counterexample.) -/
theorem C1_sort_invariant (b : Beam) (h : Reachable b) :
    (List.Pairwise (· < ·) ((sortNodes b).nodes.map (fun n => n.x)) ∧
      ∀ i, i < (sortNodes b).nodes.length →
        ((sortNodes b).nodes.getD i default).ID = i + 1) ∧
    (∀ xs fxs lbs,
      List.Pairwise (· < ·) ((addNodes b xs fxs lbs).nodes.map (fun n => n.x)) ∧
      ∀ i, i < (addNodes b xs fxs lbs).nodes.length →
        ((addNodes b xs fxs lbs).nodes.getD i default).ID = i + 1) ∧
    (∀ x f l, x ∉ b.nodeCoords →
      List.Pairwise (· < ·) (((addNode b x f l true).1).nodes.map (fun n => n.x)) ∧
      ∀ i, i < ((addNode b x f l true).1).nodes.length →
        (((addNode b x f l true).1).nodes.getD i default).ID = i + 1) := by
  have hwf := h.toWF
  refine ⟨sorted_after_sortNodes hwf, ?_, ?_⟩
  · intro xs fxs lbs
    exact sorted_after_sortNodes (WF_foldl_addNode _ _ _ _ hwf)
  · intro x f l hmem
    rw [addNode_create_sorted hwf x f l hmem]
    have hxpos : (mkNode x (f.getD (List.replicate b.ndf 0)) l).x ∉
        b.nodes.map (fun n => n.x) := fun hin => hmem ((hwf.coords x).mpr hin)
    exact sorted_after_sortNodes (WF_appendNode hwf hxpos)

/-- Witness for C1 at the Scenario-A beam. -/
theorem C1_sort_invariant_witness :
    (List.Pairwise (· < ·) ((sortNodes beamA).nodes.map (fun n => n.x)) ∧
      ∀ i, i < (sortNodes beamA).nodes.length →
        ((sortNodes beamA).nodes.getD i default).ID = i + 1) ∧
    (∀ xs fxs lbs,
      List.Pairwise (· < ·) ((addNodes beamA xs fxs lbs).nodes.map (fun n => n.x)) ∧
      ∀ i, i < (addNodes beamA xs fxs lbs).nodes.length →
        ((addNodes beamA xs fxs lbs).nodes.getD i default).ID = i + 1) ∧
    (∀ x f l, x ∉ beamA.nodeCoords →
      List.Pairwise (· < ·) (((addNode beamA x f l true).1).nodes.map (fun n => n.x)) ∧
      ∀ i, i < ((addNode beamA x f l true).1).nodes.length →
        (((addNode beamA x f l true).1).nodes.getD i default).ID = i + 1) :=
  C1_sort_invariant beamA (Reachable.step_addNodes _ _ _ Reachable.init2D)

/-- C1 counterexample: after two deferred-sort insertions at 5 and 0,
`addNode` at the existing coordinate 5 with `sort = True` takes the merge
path, which returns without resorting, leaving positions `[5, 0]`
unsorted — refuting the claim that every `addNode` with `sort = True`
re-establishes the sort invariant. -/
theorem C1_counterexample :
    unsortedMergeBeam.nodes.map (fun n => n.x) = [5, 0] ∧
    ¬ List.Pairwise (· < ·) (unsortedMergeBeam.nodes.map (fun n => n.x)) := by
  constructor
  · decide
  · decide

/-- C3 (amended): `addNode` at an existing coordinate returns 0, never
changes `Nnodes` or the node count, and the node at that coordinate keeps
its identifier — but the stored node is REPLACED by a freshly constructed
one, so its `pointLoadIDs` list is reset to `[]`, not preserved. -/
theorem C3_merge_invariant (b : Beam) (h : Reachable b) (x : ℚ)
    (f : Option (List ℤ)) (l : Option String) (s : Bool)
    (hmem : x ∈ b.nodeCoords) :
    (addNode b x f l s).1.Nnodes = b.Nnodes ∧
    (addNode b x f l s).1.nodes.length = b.nodes.length ∧
    (addNode b x f l s).2 = 0 ∧
    ∃ index, index < b.nodes.length ∧
      (b.nodes.getD index default).x = x ∧
      ((addNode b x f l s).1.nodes.getD index default).x = x ∧
      ((addNode b x f l s).1.nodes.getD index default).ID
        = (b.nodes.getD index default).ID ∧
      ((addNode b x f l s).1.nodes.getD index default).pointLoadIDs = [] := by
  have hwf := h.toWF
  obtain ⟨index, hfind⟩ := findNode_mem b.nodes x ((hwf.coords x).mp hmem)
  obtain ⟨hidx, hxeq⟩ := findNode_some b.nodes x index hfind
  rw [addNode_of_mem hmem hfind]
  refine ⟨rfl, by simp, rfl, index, hidx, ?_, ?_, ?_, ?_⟩
  · rw [getD_eq_get _ default hidx]
    exact hxeq
  · show ((b.nodes.set index (mergedNode b x f l index)).getD index default).x = x
    rw [getD_set_eq _ _ _ _ hidx]
    rfl
  · show ((b.nodes.set index (mergedNode b x f l index)).getD index default).ID
      = (b.nodes.getD index default).ID
    rw [getD_set_eq _ _ _ _ hidx]
    rfl
  · show ((b.nodes.set index (mergedNode b x f l index)).getD index default).pointLoadIDs = []
    rw [getD_set_eq _ _ _ _ hidx]
    rfl

/-- Witness for C3 on a beam whose node at 0 carries an attached load. -/
theorem C3_merge_invariant_witness :
    (addNode loadedBeam 0 none (some "") true).1.Nnodes = loadedBeam.Nnodes ∧
    (addNode loadedBeam 0 none (some "") true).1.nodes.length = loadedBeam.nodes.length ∧
    (addNode loadedBeam 0 none (some "") true).2 = 0 ∧
    ∃ index, index < loadedBeam.nodes.length ∧
      (loadedBeam.nodes.getD index default).x = 0 ∧
      ((addNode loadedBeam 0 none (some "") true).1.nodes.getD index default).x = 0 ∧
      ((addNode loadedBeam 0 none (some "") true).1.nodes.getD index default).ID
        = (loadedBeam.nodes.getD index default).ID ∧
      ((addNode loadedBeam 0 none (some "") true).1.nodes.getD index default).pointLoadIDs
        = [] :=
  C3_merge_invariant loadedBeam
    (Reachable.step_addPointLoad _ _ _ (Reachable.step_addNodes _ _ _ Reachable.init2D))
    0 none (some "") true (by decide)

/-- C3 counterexample: the node at 0 holds `pointLoadIDs = [1]`; after
`addNode(0)` (a merge) the list is `[]`, so `attachedLoadIds` is NOT
preserved as the claim states. -/
theorem C3_counterexample :
    (loadedBeam.nodes.getD 0 default).pointLoadIDs = [1] ∧
    (((addNode loadedBeam 0 none (some "") true).1).nodes.getD 0 default).pointLoadIDs
      = [] := by
  constructor
  · decide
  · decide

/-- C5 (amended): the merge path of `addNode` always stores the supplied
label argument on the node (the freshly built replacement node carries
it), so an empty (`''`) or absent (`None`) label WIPES the prior label
rather than leaving it intact; a non-empty label overwrites as claimed. -/
theorem C5_merge_label (b : Beam) (h : Reachable b) (x : ℚ)
    (f : Option (List ℤ)) (l : Option String) (s : Bool)
    (hmem : x ∈ b.nodeCoords) :
    ∃ index, index < b.nodes.length ∧
      ((addNode b x f l s).1.nodes.getD index default).x = x ∧
      ((addNode b x f l s).1.nodes.getD index default).label = l := by
  have hwf := h.toWF
  obtain ⟨index, hfind⟩ := findNode_mem b.nodes x ((hwf.coords x).mp hmem)
  obtain ⟨hidx, hxeq⟩ := findNode_some b.nodes x index hfind
  rw [addNode_of_mem hmem hfind]
  refine ⟨index, hidx, ?_, ?_⟩
  · show ((b.nodes.set index (mergedNode b x f l index)).getD index default).x = x
    rw [getD_set_eq _ _ _ _ hidx]
    rfl
  · show ((b.nodes.set index (mergedNode b x f l index)).getD index default).label = l
    rw [getD_set_eq _ _ _ _ hidx]
    rfl

/-- Witness for C5: merging at 0 on Scenario A with the default empty
label stores `some ""` (wiping label 'A'). -/
theorem C5_merge_label_witness :
    ∃ index, index < beamA.nodes.length ∧
      ((addNode beamA 0 none (some "") true).1.nodes.getD index default).x = 0 ∧
      ((addNode beamA 0 none (some "") true).1.nodes.getD index default).label
        = some "" :=
  C5_merge_label beamA (Reachable.step_addNodes _ _ _ Reachable.init2D)
    0 none (some "") true (by decide)

/-- C5 counterexample: node 0 of Scenario A is labelled 'A'; `addNode(0)`
with the default empty label leaves the label `''` — the prior label is
NOT kept, contrary to the claim. -/
theorem C5_counterexample :
    (beamA.nodes.getD 0 default).label = some "A" ∧
    ((addNode beamA 0 none (some "") true).1.nodes.getD 0 default).label = some "" := by
  constructor
  · decide
  · decide

/-- C7 (amended): `setFixity` raises (modelled as `none`, the registry
left untouched) iff the converted fixity vector has an entry outside
{0,1}, or length exactly 2, or length greater than the
degree-of-freedom count.  Vectors of length 0 or 1 — also "wrong
lengths" — are accepted, contrary to the claim. -/
theorem C7_fixity_rejection (b : Beam) (h : Reachable b) (x : ℚ)
    (f : FixityInput) (lbl : Option String) :
    setFixity b x f lbl = none ↔
      ¬((∀ v ∈ convertFixityInput b.ndf f, v = 0 ∨ v = 1) ∧
        (convertFixityInput b.ndf f).length ≠ 2 ∧
        (convertFixityInput b.ndf f).length ≤ b.ndf) := by
  have hwf := h.toWF
  rw [← checkfixityInput_iff]
  constructor
  · intro hnone hchk
    by_cases hmem : x ∈ b.nodeCoords
    · obtain ⟨index, hfind⟩ := findNode_mem b.nodes x ((hwf.coords x).mp hmem)
      rw [setFixity_of_mem hchk hmem hfind] at hnone
      exact Option.noConfusion hnone
    · rw [setFixity_of_not_mem hchk hmem] at hnone
      exact Option.noConfusion hnone
  · intro hchk
    have hfalse : checkfixityInput b.ndf (convertFixityInput b.ndf f) = false := by
      cases hc : checkfixityInput b.ndf (convertFixityInput b.ndf f)
      · rfl
      · exact absurd hc hchk
    exact setFixity_of_bad hfalse

/-- Witness for C7: the length-2 vector `[1,1]` is rejected on Scenario
A. -/
theorem C7_fixity_rejection_witness :
    setFixity beamA 0 (FixityInput.vec [1, 1]) none = none ↔
      ¬((∀ v ∈ convertFixityInput beamA.ndf (FixityInput.vec [1, 1]), v = 0 ∨ v = 1) ∧
        (convertFixityInput beamA.ndf (FixityInput.vec [1, 1])).length ≠ 2 ∧
        (convertFixityInput beamA.ndf (FixityInput.vec [1, 1])).length ≤ beamA.ndf) :=
  C7_fixity_rejection beamA (Reachable.step_addNodes _ _ _ Reachable.init2D)
    0 (FixityInput.vec [1, 1]) none

/-- C7 counterexample: the length-1 list `[1]` is NOT of length
`ndf = 3`, yet the call succeeds — the claim that any length other than
ndf is rejected is false. -/
theorem C7_counterexample :
    (setFixity beamA 0 (FixityInput.vec [1]) none).isSome = true ∧
    (convertFixityInput beamA.ndf (FixityInput.vec [1])).length = 1 ∧
    beamA.ndf = 3 := by
  refine ⟨?_, ?_, ?_⟩
  · decide
  · decide
  · decide

/-- C8 (amended): with the node sequence sorted and at least two nodes,
`getLength` returns rightmost − leftmost position; with exactly ONE node
it returns the normal value 0 (no error, contrary to the claim); only on
an empty beam does it raise (modelled as `none`). -/
theorem C8_getLength (b : Beam) :
    (List.Pairwise (· ≤ ·) (b.nodes.map (fun n => n.x)) → 2 ≤ b.nodes.length →
      ∃ lo hi, getLength b = some (hi - lo) ∧
        lo ∈ b.nodes.map (fun n => n.x) ∧ hi ∈ b.nodes.map (fun n => n.x) ∧
        ∀ p ∈ b.nodes.map (fun n => n.x), lo ≤ p ∧ p ≤ hi) ∧
    (b.nodes.length = 1 → getLength b = some 0) ∧
    (b.nodes = [] → getLength b = none) := by
  refine ⟨?_, ?_, ?_⟩
  · intro hsorted h2
    have h0 : 0 < b.nodes.length := by omega
    have hl1 : b.nodes.length - 1 < b.nodes.length := by omega
    have hhead : b.nodes.head? = some (b.nodes.get ⟨0, h0⟩) := by
      rw [List.head?_eq_getElem?, List.getElem?_eq_getElem h0]
      rfl
    have hlast : b.nodes.getLast? = some (b.nodes.get ⟨b.nodes.length - 1, hl1⟩) := by
      rw [List.getLast?_eq_getElem?, List.getElem?_eq_getElem hl1]
      rfl
    refine ⟨(b.nodes.get ⟨0, h0⟩).x, (b.nodes.get ⟨b.nodes.length - 1, hl1⟩).x,
      ?_, ?_, ?_, ?_⟩
    · unfold getLength
      rw [hlast, hhead]
    · exact List.mem_map_of_mem _ (List.get_mem _ _ _)
    · exact List.mem_map_of_mem _ (List.get_mem _ _ _)
    · intro p hp
      obtain ⟨⟨k, hk⟩, hkp⟩ := List.mem_iff_get.mp hp
      have hkl : k < b.nodes.length := by simpa using hk
      have hpair := List.pairwise_iff_get.mp hsorted
      have hmap : ∀ (m : Nat) (hm : m < b.nodes.length),
          (b.nodes.map (fun n => n.x)).get ⟨m, by simpa using hm⟩
            = (b.nodes.get ⟨m, hm⟩).x := by
        intro m hm
        rw [List.get_map]
      constructor
      · rcases Nat.eq_zero_or_pos k with hk0 | hk0
        · subst hk0
          rw [← hkp, hmap 0 h0]
        · have hcmp := hpair ⟨0, by simpa using h0⟩ ⟨k, hk⟩ hk0
          rw [hmap 0 h0, hkp] at hcmp
          exact hcmp
      · rcases Nat.lt_or_ge k (b.nodes.length - 1) with hkl1 | hkl1
        · have hcmp := hpair ⟨k, hk⟩ ⟨b.nodes.length - 1, by simpa using hl1⟩ hkl1
          rw [hmap (b.nodes.length - 1) hl1, hkp] at hcmp
          exact hcmp
        · have hke : k = b.nodes.length - 1 := by omega
          subst hke
          rw [← hkp, hmap _ hl1]
  · intro h1
    obtain ⟨a, ha⟩ := List.length_eq_one.mp h1
    simp [getLength, ha]
  · intro hnil
    simp [getLength, hnil]

/-- Witness for C8: Scenario A (two sorted nodes) has a well-defined
length, the one-node beam returns 0, and the empty beam raises. -/
theorem C8_getLength_witness :
    (∃ lo hi, getLength beamA = some (hi - lo) ∧
      lo ∈ beamA.nodes.map (fun n => n.x) ∧ hi ∈ beamA.nodes.map (fun n => n.x) ∧
      ∀ p ∈ beamA.nodes.map (fun n => n.x), lo ≤ p ∧ p ≤ hi) ∧
    getLength oneNodeBeam = some 0 ∧
    getLength (emptyBeam 3) = none :=
  ⟨(C8_getLength beamA).1 (by decide) (by decide),
   (C8_getLength oneNodeBeam).2.1 (by decide),
   (C8_getLength (emptyBeam 3)).2.2 rfl⟩

/-- C8 counterexample: a beam with exactly one node (fewer than 2) does
NOT produce an error: `getLength` returns the normal value 0. -/
theorem C8_counterexample :
    oneNodeBeam.nodes.length = 1 ∧ getLength oneNodeBeam = some 0 := by
  constructor
  · decide
  · have h : getLength oneNodeBeam = some ((5 : ℚ) - 5) := rfl
    rw [h]
    norm_num

/-- C9: `Fmax` equals the pair (fold of `min` over all left/right
internal-force samples seeded at 0, fold of `max` seeded at 0) — i.e. the
minimum of 0 and all samples and the maximum of 0 and all samples: each
component bounds 0 and every sample and is attained at 0 or at a sample,
so the reported range always includes zero. -/
theorem C9_Fmax_clamped (b : Beam) (index : Nat)
    (hres : ∀ nd ∈ b.nodes, index + b.ndf < nd.Fint.length) :
    Fmax b index = ((forceSamples b.ndf b.nodes index).foldl min 0,
      (forceSamples b.ndf b.nodes index).foldl max 0) ∧
    (Fmax b index).1 ≤ 0 ∧ 0 ≤ (Fmax b index).2 ∧
    (∀ v ∈ forceSamples b.ndf b.nodes index,
      (Fmax b index).1 ≤ v ∧ v ≤ (Fmax b index).2) ∧
    ((Fmax b index).1 = 0 ∨ (Fmax b index).1 ∈ forceSamples b.ndf b.nodes index) ∧
    ((Fmax b index).2 = 0 ∨ (Fmax b index).2 ∈ forceSamples b.ndf b.nodes index) := by
  have he := Fmax_eq b index
  refine ⟨he, ?_, ?_, ?_, ?_, ?_⟩
  · rw [he]
    exact foldl_min_le_init _ 0
  · rw [he]
    exact le_foldl_max_init _ 0
  · intro v hv
    rw [he]
    exact ⟨foldl_min_le_mem _ 0 v hv, le_foldl_max_mem _ 0 v hv⟩
  · rw [he]
    exact foldl_min_attained _ 0
  · rw [he]
    exact foldl_max_attained _ 0

/-- Witness for C9 on a beam with analyzer results: all samples are
positive, yet the reported minimum is clamped to 0. -/
theorem C9_Fmax_clamped_witness :
    (∀ nd ∈ analyzedBeam.nodes, 0 + analyzedBeam.ndf < nd.Fint.length) ∧
    Fmax analyzedBeam 0 = (0, 5) ∧
    (Fmax analyzedBeam 0 = ((forceSamples analyzedBeam.ndf analyzedBeam.nodes 0).foldl min 0,
      (forceSamples analyzedBeam.ndf analyzedBeam.nodes 0).foldl max 0) ∧
    (Fmax analyzedBeam 0).1 ≤ 0 ∧ 0 ≤ (Fmax analyzedBeam 0).2 ∧
    (∀ v ∈ forceSamples analyzedBeam.ndf analyzedBeam.nodes 0,
      (Fmax analyzedBeam 0).1 ≤ v ∧ v ≤ (Fmax analyzedBeam 0).2) ∧
    ((Fmax analyzedBeam 0).1 = 0 ∨
      (Fmax analyzedBeam 0).1 ∈ forceSamples analyzedBeam.ndf analyzedBeam.nodes 0) ∧
    ((Fmax analyzedBeam 0).2 = 0 ∨
      (Fmax analyzedBeam 0).2 ∈ forceSamples analyzedBeam.ndf analyzedBeam.nodes 0)) :=
  ⟨by decide, by decide, C9_Fmax_clamped analyzedBeam 0 (by decide)⟩

/-- C10: in every reachable beam state, `Nnodes` equals the node-sequence
length, which equals the coordinate-set cardinality; and `addNode` only
ever returns the flags 0 or 1 — the documented failure value -1 is
unreachable. -/
theorem C10_count_consistency (b : Beam) (h : Reachable b) :
    b.Nnodes = b.nodes.length ∧ b.nodes.length = b.nodeCoords.card ∧
    ∀ x f l s, (addNode b x f l s).2 = 0 ∨ (addNode b x f l s).2 = 1 := by
  have hwf := h.toWF
  refine ⟨hwf.count, ?_, fun x f l s => addNode_flag hwf x f l s⟩
  have hset : b.nodeCoords = (b.nodes.map (fun n => n.x)).toFinset := by
    apply Finset.ext
    intro q
    rw [List.mem_toFinset]
    exact hwf.coords q
  rw [hset, List.toFinset_card_of_nodup hwf.nodup, List.length_map]

/-- Witness for C10 at a beam with two nodes and a point load. -/
theorem C10_count_consistency_witness :
    loadedBeam.Nnodes = loadedBeam.nodes.length ∧
    loadedBeam.nodes.length = loadedBeam.nodeCoords.card ∧
    ∀ x f l s, (addNode loadedBeam x f l s).2 = 0 ∨ (addNode loadedBeam x f l s).2 = 1 :=
  C10_count_consistency loadedBeam
    (Reachable.step_addPointLoad _ _ _ (Reachable.step_addNodes _ _ _ Reachable.init2D))

/-- C2: after `addPointLoad` at coordinate `c` on any reachable beam, and
any further sequence of `addNode` calls (any arguments, sorted or
deferred) and resorts, the load created by that call — stored at index
`len(pointLoads)` of the pre-call state — still resolves to the node at
position `c`: such a node exists, and the load's `nodeID` equals the
identifier of every node whose position is `c`. -/
theorem C2_load_remap (b : Beam) (h : Reachable b) (c : ℚ) (P : List ℚ)
    (lbl : String) (ops : List NodeOp) :
    (∃ i, i < (applyOps (addPointLoad b c P lbl) ops).nodes.length ∧
      ((applyOps (addPointLoad b c P lbl) ops).nodes.getD i default).x = c) ∧
    ∀ i, i < (applyOps (addPointLoad b c P lbl) ops).nodes.length →
      ((applyOps (addPointLoad b c P lbl) ops).nodes.getD i default).x = c →
      ((applyOps (addPointLoad b c P lbl) ops).pointLoads.getD
          b.pointLoads.length default).nodeID
        = ((applyOps (addPointLoad b c P lbl) ops).nodes.getD i default).ID := by
  have hwf := h.toWF
  have h1 := WF_addPointLoad hwf c P lbl
  have ha0 := addPointLoad_anchored hwf c P lbl
  obtain ⟨h2, _, i0, hi0, hx0, hID0⟩ := loadAnchored_applyOps ops h1 ha0
  refine ⟨⟨i0, hi0, hx0⟩, ?_⟩
  intro i hi hx
  have hieq : i = i0 := position_unique h2 hi hi0 (by rw [hx, hx0])
  subst hieq
  rw [hID0, h2.ids i hi]

/-- Witness for C2, Scenario E: load `[0,10,0]` at 2.5 on the mesh
`{0, 2.5, 5}`, then a new node at 1.0; the load resolves to the node at
2.5, whose identifier is now 3. -/
theorem C2_load_remap_witness :
    ((∃ i, i < (applyOps (addPointLoad beamE0 twoPointFive [0, 10, 0] "")
        [NodeOp.insert 1 none (some "") true]).nodes.length ∧
      ((applyOps (addPointLoad beamE0 twoPointFive [0, 10, 0] "")
        [NodeOp.insert 1 none (some "") true]).nodes.getD i default).x = twoPointFive) ∧
    ∀ i, i < (applyOps (addPointLoad beamE0 twoPointFive [0, 10, 0] "")
        [NodeOp.insert 1 none (some "") true]).nodes.length →
      ((applyOps (addPointLoad beamE0 twoPointFive [0, 10, 0] "")
        [NodeOp.insert 1 none (some "") true]).nodes.getD i default).x = twoPointFive →
      ((applyOps (addPointLoad beamE0 twoPointFive [0, 10, 0] "")
        [NodeOp.insert 1 none (some "") true]).pointLoads.getD
          beamE0.pointLoads.length default).nodeID
        = ((applyOps (addPointLoad beamE0 twoPointFive [0, 10, 0] "")
          [NodeOp.insert 1 none (some "") true]).nodes.getD i default).ID) ∧
    ((applyOps (addPointLoad beamE0 twoPointFive [0, 10, 0] "")
        [NodeOp.insert 1 none (some "") true]).pointLoads.getD 0 default).nodeID = 3 ∧
    ((applyOps (addPointLoad beamE0 twoPointFive [0, 10, 0] "")
        [NodeOp.insert 1 none (some "") true]).nodes.getD 2 default).x = twoPointFive ∧
    ((applyOps (addPointLoad beamE0 twoPointFive [0, 10, 0] "")
        [NodeOp.insert 1 none (some "") true]).nodes.getD 2 default).ID = 3 ∧
    twoPointFive = 5 / 2 :=
  ⟨C2_load_remap beamE0 (Reachable.step_addNodes _ _ _ Reachable.init2D)
      twoPointFive [0, 10, 0] "" [NodeOp.insert 1 none (some "") true],
   by decide, by decide, by decide,
   by
    show Rat.mk' 5 2 (by decide) (by decide) = 5 / 2
    rw [Rat.mk'_eq_divInt, Rat.divInt_eq_div]
    norm_num⟩

/-- C4 (amended): a label assigned to the node at coordinate `c` keeps
resolving to the node whose position is `c` across further insertions and
resorts PROVIDED no insertion merges at `c` itself (a merge replaces the
node, label included — see the counterexample) and none re-uses the
label; Scenario C holds exactly: from nodes `[0 'A', 5 'B']`, inserting
`3 'D'` then `6 'C'` gives sorted labels `['A','D','B','C']`. -/
theorem C4_label_remap (b : Beam) (h : Reachable b) (L : String) (c : ℚ)
    (hl : labelResolves b L c) (ops : List NodeOp)
    (hav : ∀ op ∈ ops, opAvoids c L op) :
    labelResolves (applyOps b ops) L c ∧
    beamC.nodes.map (fun n => n.label) = [some "A", some "D", some "B", some "C"] := by
  refine ⟨(labelResolves_applyOps ops h.toWF hl hav).2, ?_⟩
  decide

/-- Witness for C4: label 'A' at coordinate 0 of Scenario A still
resolves to the node at 0 after the two Scenario-C insertions. -/
theorem C4_label_remap_witness :
    labelResolves (applyOps beamA
      [NodeOp.insert 3 none (some "D") true, NodeOp.insert 6 none (some "C") true])
      "A" 0 ∧
    beamC.nodes.map (fun n => n.label) = [some "A", some "D", some "B", some "C"] :=
  C4_label_remap beamA (Reachable.step_addNodes _ _ _ Reachable.init2D) "A" 0
    ⟨0, by decide, by decide, by decide, by decide⟩
    [NodeOp.insert 3 none (some "D") true, NodeOp.insert 6 none (some "C") true]
    (by
      intro op hop
      rcases List.mem_cons.mp hop with h1 | h1
      · subst h1
        exact ⟨by norm_num, by decide⟩
      · rcases List.mem_cons.mp h1 with h2 | h2
        · subst h2
          exact ⟨by norm_num, by decide⟩
        · cases h2)

/-- C4 counterexample: the claim allows arbitrary further insertions, but
inserting at the label's own coordinate merges and replaces the label:
after `addNode(0, label='C')` on Scenario A no node carries label 'A' at
all, so looking up 'A' cannot yield the node at position 0. -/
theorem C4_counterexample :
    ((addNode beamA 0 none (some "C") true).1.nodes.map (fun n => n.label))
      = [some "C", some "B"] ∧
    some "A" ∉ ((addNode beamA 0 none (some "C") true).1.nodes.map (fun n => n.label)) := by
  constructor
  · decide
  · decide

/-- C6 (amended): at node construction `hasReaction` equals "some fixity
entry is nonzero" only for the fixity lengths 3 and 1 on which the
hard-coded length-3 comparand of `np.any(fixity != [0,0,0])` broadcasts
elementwise; for any other length (notably the standard length-6 3D
fixity) the non-broadcastable `!=` collapses to the scalar `True`, so the
node gets `hasReaction = True` regardless of its entries.  Moreover,
`setFixity` on an EXISTING node sets `hasReaction = True` unconditionally
— even when the supplied vector is all-free — so the claimed iff is
broken by exactly that call (see the counterexample). -/
theorem C6_hasReaction (b b' : Beam) (h : Reachable b) (x : ℚ)
    (f : FixityInput) (lbl : Option String) (hmem : x ∈ b.nodeCoords)
    (hs : setFixity b x f lbl = some b') :
    (∀ y fx lb, fx.length = 3 ∨ fx.length = 1 →
      ((mkNode y fx lb).hasReaction = true ↔ ∃ v ∈ fx, v ≠ 0)) ∧
    (∀ y fx lb, fx.length ≠ 3 → fx.length ≠ 1 →
      (mkNode y fx lb).hasReaction = true) ∧
    ∃ index, index < b'.nodes.length ∧
      (b'.nodes.getD index default).x = x ∧
      (b'.nodes.getD index default).fixity = convertFixityInput b.ndf f ∧
      (b'.nodes.getD index default).hasReaction = true := by
  have hwf := h.toWF
  refine ⟨?_, ?_, ?_⟩
  · intro y fx lb hlen
    show (if fx.length = 3 ∨ fx.length = 1 then fx.any (fun v => v != 0) else true)
        = true ↔ ∃ v ∈ fx, v ≠ 0
    rw [if_pos hlen]
    simp [List.any_eq_true, bne_iff_ne]
  · intro y fx lb hl3 hl1
    show (if fx.length = 3 ∨ fx.length = 1 then fx.any (fun v => v != 0) else true)
        = true
    rw [if_neg (by
      intro hlen
      rcases hlen with hlen | hlen
      · exact hl3 hlen
      · exact hl1 hlen)]
  · by_cases hchk : checkfixityInput b.ndf (convertFixityInput b.ndf f) = true
    · obtain ⟨index, hfind⟩ := findNode_mem b.nodes x ((hwf.coords x).mp hmem)
      obtain ⟨hidx, hxeq⟩ := findNode_some b.nodes x index hfind
      rw [setFixity_of_mem hchk hmem hfind, Option.some.injEq] at hs
      refine ⟨index, ?_, ?_, ?_, ?_⟩
      · rw [← hs]
        simpa using hidx
      · rw [← hs]
        show ((b.nodes.set index
          (refixedNode b (convertFixityInput b.ndf f) lbl index)).getD index default).x = x
        rw [getD_set_eq _ _ _ _ hidx, refixedNode_x, getD_eq_get _ default hidx]
        exact hxeq
      · rw [← hs]
        show ((b.nodes.set index
            (refixedNode b (convertFixityInput b.ndf f) lbl index)).getD index default).fixity
          = convertFixityInput b.ndf f
        rw [getD_set_eq _ _ _ _ hidx, refixedNode_fixity]
      · rw [← hs]
        show ((b.nodes.set index
            (refixedNode b (convertFixityInput b.ndf f) lbl index)).getD index
          default).hasReaction = true
        rw [getD_set_eq _ _ _ _ hidx, refixedNode_hasReaction]
    · rw [setFixity_of_bad (Bool.eq_false_iff.mpr hchk)] at hs
      exact absurd hs (by simp)

/-- Witness for C6: `setFixity(0, [0,0,0])` on Scenario A succeeds on the
existing node at 0 and sets `hasReaction = True` despite the all-free
vector. -/
theorem C6_hasReaction_witness :
    (∀ y fx lb, fx.length = 3 ∨ fx.length = 1 →
      ((mkNode y fx lb).hasReaction = true ↔ ∃ v ∈ fx, v ≠ 0)) ∧
    (∀ y fx lb, fx.length ≠ 3 → fx.length ≠ 1 →
      (mkNode y fx lb).hasReaction = true) ∧
    ∃ index, index < refixedBeamA.nodes.length ∧
      (refixedBeamA.nodes.getD index default).x = 0 ∧
      (refixedBeamA.nodes.getD index default).fixity
        = convertFixityInput beamA.ndf (FixityInput.vec [0, 0, 0]) ∧
      (refixedBeamA.nodes.getD index default).hasReaction = true :=
  C6_hasReaction beamA refixedBeamA (Reachable.step_addNodes _ _ _ Reachable.init2D)
    0 (FixityInput.vec [0, 0, 0]) none (by decide) (by decide)

/-- C6 counterexample: after `setFixity(0, [0,0,0])` on Scenario A, the
node at 0 has an all-free fixity vector yet `hasReaction = True` — the
claim says this call leaves `hasReaction` false. -/
theorem C6_counterexample :
    (setFixity beamA 0 (FixityInput.vec [0, 0, 0]) none).map
        (fun b' => ((b'.nodes.getD 0 default).fixity,
          (b'.nodes.getD 0 default).hasReaction))
      = some ([0, 0, 0], true) := by
  decide

end PlaneSections
